import Mathlib

/-!
Verification of the demo-fallback data layer of the `hisweb` repository.

The TypeScript source is shallowly embedded:

* JavaScript's stable `Array.prototype.sort(cmp)` and the deterministic
  reading of SQL `ORDER BY` are both modelled by `sortStable`, an insertion
  sort that keeps the original order of elements the comparator ties.
* Strings are Lean `String`s; date strings `YYYY-MM-DD` are compared
  lexicographically exactly as the TypeScript code compares them with
  `localeCompare` and as SQL compares the corresponding `date` values.
* The SHA-256 digest used by `stableUuid` is abstracted as a function
  argument `h : String → String`; theorems that need it assume its output
  is a 64-character lowercase hex string, which `createHash("sha256")
  ....digest("hex")` guarantees.
* Async functions are embedded as pure functions; the memoised dataset
  promise is embedded by passing the built dataset explicitly.
-/

namespace Hisweb

/-! ### Stable sorting (JS `Array.sort` / deterministic SQL `ORDER BY`) -/

/-- Insert `x` into `l`, skipping the elements that the strict comparator
`lt` places before `x` and stopping at the first element it does not. -/
def insertStable {α : Type} (lt : α → α → Bool) (x : α) : List α → List α
  | [] => [x]
  | y :: ys => if lt y x then y :: insertStable lt x ys else x :: y :: ys

/-- Stable insertion sort with a strict "comes before" comparator `lt`:
elements that tie keep their original relative order, which is the
guaranteed behaviour of JavaScript `Array.prototype.sort`. -/
def sortStable {α : Type} (lt : α → α → Bool) : List α → List α
  | [] => []
  | x :: xs => insertStable lt x (sortStable lt xs)

theorem length_insertStable {α : Type} (lt : α → α → Bool) (x : α) (l : List α) :
    (insertStable lt x l).length = l.length + 1 := by
  induction l with
  | nil => rfl
  | cons y ys ih =>
      by_cases h : lt y x = true
      · simp [insertStable, h, ih]
      · simp [insertStable, h]

theorem length_sortStable {α : Type} (lt : α → α → Bool) (l : List α) :
    (sortStable lt l).length = l.length := by
  induction l with
  | nil => rfl
  | cons x xs ih => simp [sortStable, length_insertStable, ih]

theorem perm_insertStable {α : Type} (lt : α → α → Bool) (x : α) (l : List α) :
    (insertStable lt x l).Perm (x :: l) := by
  induction l with
  | nil => simp [insertStable]
  | cons y ys ih =>
      by_cases h : lt y x = true
      · simpa [insertStable, h] using
          ((ih.cons y).trans (List.Perm.swap x y ys))
      · simp [insertStable, h]

theorem perm_sortStable {α : Type} (lt : α → α → Bool) (l : List α) :
    (sortStable lt l).Perm l := by
  induction l with
  | nil => simp [sortStable]
  | cons x xs ih =>
      exact (perm_insertStable lt x (sortStable lt xs)).trans (ih.cons x)

theorem map_insertStable {α β : Type} (lt : α → α → Bool) (lt' : β → β → Bool)
    (f : α → β) (hc : ∀ a b, lt' (f a) (f b) = lt a b) (x : α) (l : List α) :
    (insertStable lt x l).map f = insertStable lt' (f x) (l.map f) := by
  induction l with
  | nil => rfl
  | cons y ys ih =>
      by_cases h : lt y x = true
      · simp [insertStable, h, hc, ih]
      · simp [insertStable, h, hc]

theorem map_sortStable {α β : Type} (lt : α → α → Bool) (lt' : β → β → Bool)
    (f : α → β) (hc : ∀ a b, lt' (f a) (f b) = lt a b) (l : List α) :
    (sortStable lt l).map f = sortStable lt' (l.map f) := by
  induction l with
  | nil => rfl
  | cons x xs ih =>
      simp [sortStable, map_insertStable lt lt' f hc, ih]

theorem pairwise_insertStable {α : Type} (lt : α → α → Bool)
    (htot : ∀ a b, lt a b = true → lt b a = false)
    (htrans : ∀ a b c, lt b a = false → lt c b = false → lt c a = false)
    (x : α) (l : List α) (hl : l.Pairwise (fun a b => lt b a = false)) :
    (insertStable lt x l).Pairwise (fun a b => lt b a = false) := by
  induction l with
  | nil => simp [insertStable]
  | cons y ys ih =>
      rcases List.pairwise_cons.mp hl with ⟨hy, hys⟩
      by_cases h : lt y x = true
      · have hx : lt x y = false := htot y x h
        simp only [insertStable, if_pos h]
        refine List.pairwise_cons.mpr ⟨?_, ih hys⟩
        intro z hz
        have hz' := (perm_insertStable lt x ys).mem_iff.mp hz
        rcases List.mem_cons.mp hz' with hzx | hzy
        · subst hzx; exact hx
        · exact hy z hzy
      · have hyx : lt y x = false := by
          cases hxy : lt y x with
          | false => rfl
          | true => exact absurd hxy h
        simp only [insertStable, if_neg h]
        refine List.pairwise_cons.mpr ⟨?_, hl⟩
        intro z hz
        rcases List.mem_cons.mp hz with hzy | hzys
        · subst hzy; exact hyx
        · exact htrans x y z hyx (hy z hzys)

theorem pairwise_sortStable {α : Type} (lt : α → α → Bool)
    (htot : ∀ a b, lt a b = true → lt b a = false)
    (htrans : ∀ a b c, lt b a = false → lt c b = false → lt c a = false)
    (l : List α) :
    (sortStable lt l).Pairwise (fun a b => lt b a = false) := by
  induction l with
  | nil => simp [sortStable]
  | cons x xs ih => exact pairwise_insertStable lt htot htrans x _ ih

/-! ### Generic list plumbing -/

theorem filter_map_comm {α β : Type} (f : α → β) (p : β → Bool) (l : List α) :
    (l.map f).filter p = (l.filter (fun a => p (f a))).map f := by
  induction l with
  | nil => rfl
  | cons x xs ih =>
      by_cases h : p (f x) = true
      · simp [h, ih]
      · simp [h, ih]

theorem filter_and_comm {α : Type} (p q : α → Bool) (l : List α) :
    (l.filter p).filter q = l.filter (fun a => p a && q a) := by
  induction l with
  | nil => rfl
  | cons x xs ih =>
      by_cases hp : p x = true
      · by_cases hq : q x = true
        · simp [hp, hq, ih]
        · simp [hp, hq, ih]
      · simp [hp, ih]

theorem filterMap_eq_flatMap {α β : Type} (f : α → Option β) (g : α → List β)
    (h : ∀ a, g a = (f a).toList) (l : List α) :
    l.flatMap g = l.filterMap f := by
  induction l with
  | nil => rfl
  | cons x xs ih =>
      cases hfx : f x with
      | none => simp [List.flatMap_cons, h x, hfx, ih, List.filterMap_cons]
      | some b => simp [List.flatMap_cons, h x, hfx, ih, List.filterMap_cons]

/-! ### Case-insensitive substring matching (JS `toLowerCase().includes`) -/

/-- `isPrefixB pat l` : `pat` is a prefix of `l` (executable). -/
def isPrefixB : List Char → List Char → Bool
  | [], _ => true
  | _ :: _, [] => false
  | a :: as, b :: bs => a == b && isPrefixB as bs

/-- `containsSub pat hay` : `pat` occurs as a contiguous substring of `hay`. -/
def containsSub (pat : List Char) : List Char → Bool
  | [] => pat.isEmpty
  | c :: rest => isPrefixB pat (c :: rest) || containsSub pat rest

/-- Lowercase a string character-wise (model of JS `toLowerCase` /
regex `/i` matching on the ASCII strings this code base handles). -/
def lowerStr (s : String) : String := String.mk (s.toList.map Char.toLower)

/-- Case-insensitive containment: model of
`haystack.toLowerCase().includes(needle.toLowerCase())` and of an
unanchored case-insensitive literal regex test. -/
def containsCI (hay pat : String) : Bool :=
  containsSub (lowerStr pat).toList (lowerStr hay).toList

/-- Lexicographic "strictly before" on character lists by code point:
the executable model of JS `localeCompare < 0` and SQL text `<` on the
ASCII data this code base handles. -/
def listLtB : List Char → List Char → Bool
  | [], [] => false
  | [], _ :: _ => true
  | _ :: _, [] => false
  | a :: as, b :: bs =>
      if a.toNat < b.toNat then true
      else if b.toNat < a.toNat then false
      else listLtB as bs

def strLt (a b : String) : Bool := listLtB a.toList b.toList

/-- `a >= b` on strings, as the JS comparison `!(a < b)`. -/
def strGe (a b : String) : Bool := !(strLt a b)

/-! ### Postgres `simple` full-text search (`to_tsvector` / `plainto_tsquery`) -/

def isAlnumB (c : Char) : Bool := c.isAlpha || c.isDigit

/-- Split a character list into maximal alphanumeric runs; `cur` holds the
current run reversed. -/
def wordsGo : List Char → List Char → List (List Char)
  | [], cur => if cur.isEmpty then [] else [cur.reverse]
  | c :: rest, cur =>
      if isAlnumB c then wordsGo rest (c :: cur)
      else if cur.isEmpty then wordsGo rest [] else cur.reverse :: wordsGo rest []

/-- Lexemes of `to_tsvector('simple', s)`: lowercased alphanumeric words
(the `simple` configuration does no stemming). -/
def tsTokens (s : String) : List String :=
  (wordsGo (lowerStr s).toList []).map String.mk

/-- `to_tsvector('simple', doc) @@ plainto_tsquery('simple', q)`:
every lexeme of the query occurs among the lexemes of the document. -/
def tsMatch (doc q : String) : Bool :=
  (tsTokens q).all (fun w => (tsTokens doc).contains w)

/-! ### UUID shape: `isValidUuid` (src/web/src/lib/events.ts:132) and
`stableUuid` (src/web/src/lib/demo-store.ts:123) -/

def isHexDigitB (c : Char) : Bool :=
  c.isDigit || ('a' ≤ c && c ≤ 'f') || ('A' ≤ c && c ≤ 'F')

def isLowerHexB (c : Char) : Bool :=
  c.isDigit || ('a' ≤ c && c ≤ 'f')

/-- Consume exactly `n` hex digits, returning the rest of the input. -/
def hexRun : Nat → List Char → Option (List Char)
  | 0, cs => some cs
  | _ + 1, [] => none
  | n + 1, c :: cs => if isHexDigitB c then hexRun n cs else none

def isUuidVersionChar (c : Char) : Bool := '1' ≤ c && c ≤ '5'

def isUuidVariantChar (c : Char) : Bool :=
  c == '8' || c == '9' || c == 'a' || c == 'b' || c == 'A' || c == 'B'

/-- Consume a literal `-`. -/
def expectDash : List Char → Option (List Char)
  | '-' :: cs => some cs
  | _ => none

/-- Consume one `[1-5]` version character. -/
def expectVersion : List Char → Option (List Char)
  | c :: cs => if isUuidVersionChar c then some cs else none
  | [] => none

/-- Consume one `[89ab]` (case-insensitive) variant character. -/
def expectVariant : List Char → Option (List Char)
  | c :: cs => if isUuidVariantChar c then some cs else none
  | [] => none

/-- Model of the anchored regex
`/^[0-9a-f]{8}-[0-9a-f]{4}-[1-5][0-9a-f]{3}-[89ab][0-9a-f]{3}-[0-9a-f]{12}$/i`. -/
def isValidUuid (s : String) : Bool :=
  match (((((((((hexRun 8 s.toList).bind expectDash).bind (hexRun 4)).bind
      expectDash).bind expectVersion).bind (hexRun 3)).bind expectDash).bind
      expectVariant).bind (hexRun 3)).bind expectDash |>.bind (hexRun 12) with
  | some [] => true
  | _ => false

/-- `stableUuid` from src/web/src/lib/demo-store.ts: format a digest as a
versioned-looking identifier.  The SHA-256 hex digest is abstracted as
`h`. -/
def stableUuid (h : String → String) (seed : String) : String :=
  let hex := (h seed).toList
  String.mk
    (hex.take 8 ++ '-' :: (hex.drop 8).take 4 ++
      '-' :: '4' :: (hex.drop 13).take 3 ++
      '-' :: 'a' :: (hex.drop 17).take 3 ++
      '-' :: (hex.drop 20).take 12)

/-- A 64-character lowercase hex string, the shape of every
`sha256...digest("hex")` output. -/
def isHex64 (s : String) : Bool :=
  s.toList.length == 64 && s.toList.all isLowerHexB

def hexDigitChar (n : Nat) : Char :=
  if n < 10 then Char.ofNat ('0'.toNat + n) else Char.ofNat ('a'.toNat + (n - 10))

def charHexPair (c : Char) : List Char :=
  [hexDigitChar ((c.toNat / 16) % 16), hexDigitChar (c.toNat % 16)]

/-- A concrete stand-in for the SHA-256 hex digest used when
instantiating theorems: hex-encodes the seed and pads to 64 lowercase
hex characters, so distinct short seeds get distinct digests and
`isHex64` holds. -/
def sampleHash (s : String) : String :=
  String.mk ((s.toList.flatMap charHexPair ++ List.replicate 64 'a').take 64)

/-! ### Data model (src/web/src/lib/demo-store.ts) -/

inductive EventStatus where
  | draft | review | published | archived
  deriving DecidableEq, Repr

inductive SourceType where
  | archive | official | news | research | dataset | other
  deriving DecidableEq, Repr

structure SeedSource where
  source_name : String
  source_url : String
  source_type : Option String := none
  publisher : Option String := none
  publication_or_snapshot_date : Option String := none
  access_date : Option String := none
  rights_note : Option String := none
  notes_on_reliability : Option String := none
  deriving DecidableEq, Repr

structure SeedEvent where
  slug : Option String := none
  title : String
  event_date : String
  region : String
  category : String
  summary : String
  impact : String
  importance_score : Nat
  confidence_score : Option Nat := none
  status : Option EventStatus := none
  deriving DecidableEq, Repr

structure SeedEventSource where
  event_slug : String
  source_url : String
  relevance_rank : Option Nat := none
  quote_excerpt : Option String := none
  citation_note : Option String := none
  deriving DecidableEq, Repr

structure SeedPayload where
  sources : List SeedSource := []
  events : List SeedEvent := []
  event_sources : List SeedEventSource := []
  deriving DecidableEq, Repr

structure DemoSourceRecord where
  id : String
  source_name : String
  source_url : String
  source_type : SourceType
  publisher : Option String
  publication_or_snapshot_date : Option String
  access_date : Option String
  rights_note : Option String
  notes_on_reliability : Option String
  created_at : String
  updated_at : String
  deriving DecidableEq, Repr

structure DemoEventRecord where
  id : String
  slug : String
  title : String
  event_date : String
  region : String
  category : String
  summary : String
  impact : String
  importance_score : Nat
  confidence_score : Nat
  status : EventStatus
  published_at : Option String
  created_at : String
  updated_at : String
  deriving DecidableEq, Repr

structure DemoEventSourceRecord where
  event_id : String
  source_id : String
  quote_excerpt : Option String
  citation_note : Option String
  relevance_rank : Nat
  deriving DecidableEq, Repr

structure DemoTimelineRecord where
  id : String
  title : String
  slug : String
  description : Option String
  created_at : String
  updated_at : String
  deriving DecidableEq, Repr

structure DemoTimelineEventRecord where
  timeline_id : String
  event_id : String
  sequence_no : Nat
  deriving DecidableEq, Repr

structure DemoTagRecord where
  id : String
  slug : String
  name : String
  deriving DecidableEq, Repr

structure DemoEventTagRecord where
  event_id : String
  tag_id : String
  deriving DecidableEq, Repr

structure DemoDataset where
  sources : List DemoSourceRecord
  events : List DemoEventRecord
  eventSources : List DemoEventSourceRecord
  timelines : List DemoTimelineRecord
  timelineEvents : List DemoTimelineEventRecord
  tags : List DemoTagRecord
  eventTags : List DemoEventTagRecord
  deriving DecidableEq, Repr

/-! ### Demo dataset builder (src/web/src/lib/demo-store.ts) -/

/-- `normalizeSlug`: lowercase, collapse non-alphanumeric runs to single
hyphens, trim boundary hyphens, fall back to `"record"`.  The Unicode
NFKD decomposition and diacritic stripping of the source are the identity
on the ASCII strings modelled here. -/
def normalizeSlug (input : String) : String :=
  let ws := wordsGo (lowerStr input).toList []
  if ws.isEmpty then "record" else String.intercalate "-" (ws.map String.mk)

def normalizeSourceType : Option String → SourceType
  | some "archive" => .archive
  | some "official" => .official
  | some "news" => .news
  | some "research" => .research
  | some "dataset" => .dataset
  | _ => .other

def toIsoDate (dateString : String) : String := dateString ++ "T00:00:00.000Z"

/-- Comparator of `sortByEventDateAsc`: date ascending, ties broken by
slug (the only comparator in the builder with an explicit tie-break). -/
def eventDateAscLt (a b : DemoEventRecord) : Bool :=
  strLt a.event_date b.event_date ||
    (a.event_date == b.event_date && strLt a.slug b.slug)

/-- Keyword test of the crisis/stress timeline:
`/crash|crisis|stress|banking|default|rescue|failure/` over
lowercased `title category`. -/
def crisisMatch (e : DemoEventRecord) : Bool :=
  ["crash", "crisis", "stress", "banking", "default", "rescue", "failure"].any
    (fun p => containsCI (e.title ++ " " ++ e.category) p)

/-- Membership rows `1..k` for one derived timeline, in filtered order. -/
def seqFor (tid : String) (xs : List DemoEventRecord) : List DemoTimelineEventRecord :=
  xs.enum.map (fun p => { timeline_id := tid, event_id := p.2.id, sequence_no := p.1 + 1 })

/-- One derived timeline header. -/
def mkTimeline (h : String → String) (now slug title description : String) :
    DemoTimelineRecord :=
  { id := stableUuid h ("timeline:" ++ slug), title := title, slug := slug,
    description := some description, created_at := now, updated_at := now }

/-- `buildTimelines`: the all-published timeline plus eight filtered
timelines (slug-prefix, or keyword match for the crisis timeline), each
numbered `1..k` in date-sorted order. -/
def buildTimelines (h : String → String) (now : String) (events : List DemoEventRecord) :
    List DemoTimelineRecord × List DemoTimelineEventRecord :=
  let published := sortStable eventDateAscLt
    (events.filter (fun e => e.status == .published))
  let primary := mkTimeline h now "global-financial-turning-points"
    "Global Financial Turning Points"
    "Major events that reshaped financial markets and policy regimes."
  let crisis := mkTimeline h now "crisis-and-stabilization"
    "Crisis and Stabilization Cycle"
    "Episodes of stress and the policy responses that followed."
  let coldWar := mkTimeline h now "us-soviet-cold-war"
    "US-Soviet Cold War (1946-1991)"
    "Key geopolitical, military, and policy milestones in the U.S.-Soviet Cold War."
  let chinaUs := mkTimeline h now "china-us-since-1900"
    "China-U.S. Relations Since 1900"
    "Major diplomatic, military, trade, and technology turning points in China-U.S. relations."
  let chinaSoviet := mkTimeline h now "china-soviet-relations"
    "China-Soviet Relations (1949-1991)"
    "Alliance, split, border crises, and normalization milestones in China-Soviet relations."
  let chinaWar := mkTimeline h now "china-wars-since-1900"
    "Wars Involving China Since 1900"
    "Major interstate and cross-strait conflict milestones involving China after 1900."
  let usWar := mkTimeline h now "us-wars-since-1900"
    "Wars Involving the United States Since 1900"
    "Major war-entry, escalation, intervention, and withdrawal milestones involving the United States."
  let ccp := mkTimeline h now "ccp-history-since-1921"
    "CPC-Centered Timeline Since 1921"
    "Major organizational, political, and policy milestones centered on the Communist Party of China."
  let wwii := mkTimeline h now "world-war-ii"
    "World War II Timeline (1939-1945)"
    "Key military, diplomatic, and war-ending milestones in World War II."
  let timelineEvents :=
    seqFor primary.id published ++
    seqFor crisis.id (published.filter crisisMatch) ++
    seqFor coldWar.id (published.filter (fun e => e.slug.startsWith "cold-war-")) ++
    seqFor chinaUs.id (published.filter (fun e => e.slug.startsWith "china-us-")) ++
    seqFor chinaSoviet.id (published.filter (fun e => e.slug.startsWith "china-soviet-")) ++
    seqFor chinaWar.id (published.filter (fun e => e.slug.startsWith "china-war-")) ++
    seqFor usWar.id (published.filter (fun e => e.slug.startsWith "us-war-")) ++
    seqFor ccp.id (published.filter (fun e => e.slug.startsWith "ccp-")) ++
    seqFor wwii.id (published.filter (fun e => e.slug.startsWith "wwii-"))
  ([primary, crisis, coldWar, chinaUs, chinaSoviet, chinaWar, usWar, ccp, wwii],
    timelineEvents)

/-- One iteration of the `buildTags` loop over the `categoryToTag`
JS map (an insertion-ordered association list) and the `eventTags`
accumulator. -/
def buildTagsStep (h : String → String)
    (acc : List (String × DemoTagRecord) × List DemoEventTagRecord)
    (e : DemoEventRecord) :
    List (String × DemoTagRecord) × List DemoEventTagRecord :=
  let slug := normalizeSlug e.category
  let m :=
    if acc.1.any (fun p => p.1 == slug) then acc.1
    else acc.1 ++ [(slug,
      { id := stableUuid h ("tag:" ++ slug), slug := slug, name := e.category })]
  match m.find? (fun p => p.1 == slug) with
  | some t => (m, acc.2 ++ [{ event_id := e.id, tag_id := t.2.id }])
  | none => (m, acc.2)

/-- `buildTags`: one tag per distinct slug-normalised category value, in
first-appearance order, and one `eventTags` row per event — note the loop
runs over *all* events, not only published ones. -/
def buildTags (h : String → String) (events : List DemoEventRecord) :
    List DemoTagRecord × List DemoEventTagRecord :=
  let res := events.foldl (buildTagsStep h) ([], [])
  (res.1.map (·.2), res.2)

/-- Lookup in a JS `Map` built from a key/value entry list: the last
entry for a key wins. -/
def lastFind? {α : Type} (p : α → Bool) (l : List α) : Option α :=
  l.reverse.find? p

/-- The mapped `sources` records of `buildDataset`. -/
def buildSources (h : String → String) (payload : SeedPayload) (now : String) :
    List DemoSourceRecord :=
  payload.sources.map (fun s =>
    { id := stableUuid h ("source:" ++ s.source_url),
      source_name := s.source_name,
      source_url := s.source_url,
      source_type := normalizeSourceType s.source_type,
      publisher := s.publisher,
      publication_or_snapshot_date := s.publication_or_snapshot_date,
      access_date := s.access_date,
      rights_note := s.rights_note,
      notes_on_reliability := s.notes_on_reliability,
      created_at := now, updated_at := now })

/-- The mapped `events` records of `buildDataset`. -/
def buildEvents (h : String → String) (payload : SeedPayload) (now : String) :
    List DemoEventRecord :=
  payload.events.map (fun e =>
    let slug := normalizeSlug (e.slug.getD e.title)
    let status := e.status.getD .draft
    { id := stableUuid h ("event:" ++ slug),
      slug := slug,
      title := e.title,
      event_date := e.event_date,
      region := e.region,
      category := e.category,
      summary := e.summary,
      impact := e.impact,
      importance_score := e.importance_score,
      confidence_score := e.confidence_score.getD 3,
      status := status,
      published_at := if status == .published then some (toIsoDate e.event_date) else none,
      created_at := now, updated_at := now })

/-- Resolve one seed event-source link by natural key against the
`eventIdBySlug` / `sourceIdByUrl` JS maps (last entry per key wins);
`none` when either side is missing. -/
def resolveSeedLink (events : List DemoEventRecord) (sources : List DemoSourceRecord)
    (link : SeedEventSource) : Option DemoEventSourceRecord :=
  match lastFind? (fun e => e.slug == normalizeSlug link.event_slug) events,
      lastFind? (fun s => s.source_url == link.source_url) sources with
  | some e, some s =>
      some { event_id := e.id, source_id := s.id,
             quote_excerpt := link.quote_excerpt,
             citation_note := link.citation_note,
             relevance_rank := link.relevance_rank.getD 1 }
  | _, _ => none

/-- Whether one seed link resolves on both sides. -/
def seedLinkResolves (events : List DemoEventRecord) (sources : List DemoSourceRecord)
    (link : SeedEventSource) : Bool :=
  (lastFind? (fun e => e.slug == normalizeSlug link.event_slug) events).isSome &&
    (lastFind? (fun s => s.source_url == link.source_url) sources).isSome

/-- `buildDataset`: derive the full in-memory snapshot from a seed
payload.  `now` stands for the `new Date().toISOString()` taken at build
time. -/
def buildDataset (h : String → String) (payload : SeedPayload) (now : String) :
    DemoDataset :=
  let sources := buildSources h payload now
  let events := buildEvents h payload now
  let eventSources := payload.event_sources.filterMap (resolveSeedLink events sources)
  let tl := buildTimelines h now events
  let tg := buildTags h events
  { sources := sources, events := events, eventSources := eventSources,
    timelines := tl.1, timelineEvents := tl.2, tags := tg.1, eventTags := tg.2 }

/-! ### Event listing, dual path (src/web/src/lib/events.ts) -/

inductive EventSort where
  | date_desc | date_asc | importance_desc
  deriving DecidableEq, Repr

/-- Filter/sort request of `listPublishedEvents`.  `from`/`to` carry a
trailing underscore because they are Lean keywords. -/
structure ListEventsFilters where
  date : Option String := none
  from_ : Option String := none
  to_ : Option String := none
  category : Option String := none
  region : Option String := none
  tag : Option String := none
  importanceMin : Option Nat := none
  q : Option String := none
  page : Nat
  pageSize : Nat
  sort : EventSort
  deriving DecidableEq, Repr

structure EventListItem where
  id : String
  slug : String
  title : String
  event_date : String
  region : String
  category : String
  summary : String
  importance_score : Nat
  confidence_score : Nat
  source_count : Nat
  tags : List String
  deriving DecidableEq, Repr

structure Pagination where
  page : Nat
  page_size : Nat
  total : Nat
  total_pages : Nat
  deriving DecidableEq, Repr

structure EventListResult where
  items : List EventListItem
  pagination : Pagination
  deriving DecidableEq, Repr

/-- `COUNT(*)` of event_sources rows for one event / the per-event counter
loop of the demo path (both count the same rows). -/
def sourceCount (ds : DemoDataset) (eid : String) : Nat :=
  (ds.eventSources.filter (fun l => l.event_id == eid)).length

/-- Demo path: per-event tag slugs in `eventTags` order, each resolved
through `dataset.tags.find`, unresolvable entries skipped. -/
def demoTagSlugsRaw (ds : DemoDataset) (eid : String) : List String :=
  (ds.eventTags.filter (fun et => et.event_id == eid)).filterMap
    (fun et => (ds.tags.find? (fun t => t.id == et.tag_id)).map (·.slug))

/-- Demo path item tags: `[...slugs].sort()`. -/
def demoItemTags (ds : DemoDataset) (eid : String) : List String :=
  sortStable strLt (demoTagSlugsRaw ds eid)

def demoItemOf (ds : DemoDataset) (e : DemoEventRecord) : EventListItem :=
  { id := e.id, slug := e.slug, title := e.title, event_date := e.event_date,
    region := e.region, category := e.category, summary := e.summary,
    importance_score := e.importance_score, confidence_score := e.confidence_score,
    source_count := sourceCount ds e.id, tags := demoItemTags ds e.id }

/-- Comparators of `applyEventSort` (JS comparator is negative exactly
when the first argument sorts first). -/
def applyEventSortLt : EventSort → EventListItem → EventListItem → Bool
  | .date_asc => fun a b => strLt a.event_date b.event_date
  | .importance_desc => fun a b =>
      decide (b.importance_score < a.importance_score) ||
        (b.importance_score == a.importance_score && strLt b.event_date a.event_date)
  | .date_desc => fun a b => strLt b.event_date a.event_date

def applyEventSort (items : List EventListItem) (sort : EventSort) : List EventListItem :=
  sortStable (applyEventSortLt sort) items

/-- `total === 0 ? 0 : Math.ceil(total / pageSize)` (for the positive
page sizes both paths are called with). -/
def ceilPages (total pageSize : Nat) : Nat :=
  if total == 0 then 0 else (total + pageSize - 1) / pageSize

def matchesKeyword (haystack query : String) : Bool := containsCI haystack query

/-- `if (filters.x) { items = items.filter(...) }`: filter only when the
optional request field is present. -/
def optFilter {α β : Type} (o : Option β) (p : β → α → Bool) (l : List α) : List α :=
  match o with
  | some v => l.filter (p v)
  | none => l

/-- A conditionally present `WHERE` clause: `true` when the request field
is absent. -/
def optPred {β : Type} (o : Option β) (p : β → Bool) : Bool :=
  match o with
  | some v => p v
  | none => true

/-- `listPublishedEventsFromDemo`: filter, sort and paginate the
published events of the snapshot.  The sequential `if (filters.x)`
filters of the source become `optFilter` on the optional fields. -/
def listPublishedEventsFromDemo (ds : DemoDataset) (f : ListEventsFilters) :
    EventListResult :=
  let items := (ds.events.filter (fun e => e.status == .published)).map (demoItemOf ds)
  let items := optFilter f.date (fun d i => i.event_date == d) items
  let items := optFilter f.from_ (fun d i => strGe i.event_date d) items
  let items := optFilter f.to_ (fun d i => strGe d i.event_date) items
  let items := optFilter f.category (fun c i => i.category == c) items
  let items := optFilter f.region (fun r i => i.region == r) items
  let items := optFilter f.tag (fun t i => i.tags.contains t) items
  let items := optFilter f.importanceMin (fun m i => decide (m ≤ i.importance_score)) items
  let items := optFilter f.q (fun q i =>
    matchesKeyword (i.title ++ " " ++ i.summary ++ " " ++ i.category ++ " " ++ i.region) q) items
  let sorted := applyEventSort items f.sort
  let total := sorted.length
  let offset := (f.page - 1) * f.pageSize
  { items := (sorted.drop offset).take f.pageSize,
    pagination := { page := f.page, page_size := f.pageSize, total := total,
                    total_pages := ceilPages total f.pageSize } }

/-- The document of the live path's keyword match:
`coalesce(e.title,'') || ' ' || coalesce(e.summary,'') || ' ' || coalesce(e.impact,'')`. -/
def liveKeywordDoc (e : DemoEventRecord) : String :=
  e.title ++ " " ++ e.summary ++ " " ++ e.impact

/-- `EXISTS (SELECT 1 FROM event_tags etf JOIN tags tf ...)`: the live
tag clause for one events row. -/
def liveTagExists (ds : DemoDataset) (eid t : String) : Bool :=
  ds.eventTags.any (fun et =>
    et.event_id == eid && ds.tags.any (fun tg => tg.id == et.tag_id && tg.slug == t))

/-- The `WHERE` clause built by `buildEventWhere`, as one predicate over
an events row, against a live store holding the same relational content
as `ds`.  Clauses are conjoined in the order the source pushes them. -/
def liveEventPred (ds : DemoDataset) (f : ListEventsFilters) (e : DemoEventRecord) : Bool :=
  ((((((((e.status == .published) &&
    optPred f.date (fun d => e.event_date == d)) &&
    optPred f.from_ (fun d => strGe e.event_date d)) &&
    optPred f.to_ (fun d => strGe d e.event_date)) &&
    optPred f.category (fun c => e.category == c)) &&
    optPred f.region (fun r => e.region == r)) &&
    optPred f.tag (fun t => liveTagExists ds e.id t)) &&
    optPred f.importanceMin (fun m => decide (m ≤ e.importance_score))) &&
    optPred f.q (fun q => tsMatch (liveKeywordDoc e) q)

/-- `resolveSort`: the `ORDER BY` comparators of the live listing. -/
def liveSortLt : EventSort → DemoEventRecord → DemoEventRecord → Bool
  | .date_asc => fun a b => strLt a.event_date b.event_date
  | .importance_desc => fun a b =>
      decide (b.importance_score < a.importance_score) ||
        (b.importance_score == a.importance_score && strLt b.event_date a.event_date)
  | .date_desc => fun a b => strLt b.event_date a.event_date

/-- Live path item tags: `json_agg(t.slug ORDER BY t.slug)` over the
event_tags ⋈ tags join, `[]` when there is no row. -/
def liveTags (ds : DemoDataset) (eid : String) : List String :=
  sortStable strLt
    ((ds.eventTags.filter (fun et => et.event_id == eid)).flatMap
      (fun et => (ds.tags.filter (fun t => t.id == et.tag_id)).map (·.slug)))

def liveRowOf (ds : DemoDataset) (e : DemoEventRecord) : EventListItem :=
  { id := e.id, slug := e.slug, title := e.title, event_date := e.event_date,
    region := e.region, category := e.category, summary := e.summary,
    importance_score := e.importance_score, confidence_score := e.confidence_score,
    source_count := sourceCount ds e.id, tags := liveTags ds e.id }

/-- `listPublishedEvents`, live branch: the count query plus the list
query (`WHERE`, `ORDER BY`, `LIMIT`, `OFFSET`), evaluated against a live
store with the same relational content as `ds`.  Ties under `ORDER BY`
are read deterministically in table order. -/
def listPublishedEventsLive (ds : DemoDataset) (f : ListEventsFilters) :
    EventListResult :=
  let filtered := ds.events.filter (liveEventPred ds f)
  let total := filtered.length
  let sorted := sortStable (liveSortLt f.sort) filtered
  let offset := (f.page - 1) * f.pageSize
  { items := ((sorted.drop offset).take f.pageSize).map (liveRowOf ds),
    pagination := { page := f.page, page_size := f.pageSize, total := total,
                    total_pages := ceilPages total f.pageSize } }

/-! ### Month-day listing, dual path (src/web/src/lib/events.ts) -/

/-- The fixed request `listPublishedEventsByMonthDayFromDemo` issues. -/
def monthDayDemoFilters : ListEventsFilters :=
  { page := 1, pageSize := 5000, sort := .date_desc }

/-- Demo path: list the first 5000 published events sorted by date
descending, then keep those whose `MM-DD` suffix matches. -/
def listPublishedEventsByMonthDayFromDemo (ds : DemoDataset) (monthDay : String) :
    List EventListItem :=
  (listPublishedEventsFromDemo ds monthDayDemoFilters).items.filter
    (fun i => i.event_date.drop 5 == monthDay)

/-- `ORDER BY e.event_date DESC, e.importance_score DESC`. -/
def monthDayLiveLt (a b : DemoEventRecord) : Bool :=
  strLt b.event_date a.event_date ||
    (b.event_date == a.event_date && decide (b.importance_score < a.importance_score))

/-- Live path: one query filtering on status and
`to_char(e.event_date, 'MM-DD')`, ordered by date then importance
descending. -/
def listPublishedEventsByMonthDayLive (ds : DemoDataset) (monthDay : String) :
    List EventListItem :=
  (sortStable monthDayLiveLt
    (ds.events.filter (fun e => e.status == .published && e.event_date.drop 5 == monthDay))).map
    (liveRowOf ds)

/-! ### Source detail, dual path (src/web/src/lib/sources.ts) -/

structure SourceLinkedEvent where
  id : String
  slug : String
  title : String
  event_date : String
  region : String
  category : String
  summary : String
  relevance_rank : Nat
  quote_excerpt : Option String
  citation_note : Option String
  deriving DecidableEq, Repr

structure SourceDetail where
  id : String
  source_name : String
  source_url : String
  source_type : SourceType
  publisher : Option String
  publication_or_snapshot_date : Option String
  access_date : Option String
  rights_note : Option String
  notes_on_reliability : Option String
  created_at : String
  updated_at : String
  linked_events : List SourceLinkedEvent
  deriving DecidableEq, Repr

def mkLinked (e : DemoEventRecord) (l : DemoEventSourceRecord) : SourceLinkedEvent :=
  { id := e.id, slug := e.slug, title := e.title, event_date := e.event_date,
    region := e.region, category := e.category, summary := e.summary,
    relevance_rank := l.relevance_rank,
    quote_excerpt := l.quote_excerpt, citation_note := l.citation_note }

def mkSourceDetail (s : DemoSourceRecord) (linked : List SourceLinkedEvent) : SourceDetail :=
  { id := s.id, source_name := s.source_name, source_url := s.source_url,
    source_type := s.source_type, publisher := s.publisher,
    publication_or_snapshot_date := s.publication_or_snapshot_date,
    access_date := s.access_date, rights_note := s.rights_note,
    notes_on_reliability := s.notes_on_reliability,
    created_at := s.created_at, updated_at := s.updated_at,
    linked_events := linked }

/-- `.sort((a, b) => b.relevance_rank - a.relevance_rank)`. -/
def rankDescLt (a b : DemoEventSourceRecord) : Bool :=
  decide (b.relevance_rank < a.relevance_rank)

/-- `.sort((a, b) => b.event_date.localeCompare(a.event_date))`. -/
def linkedDateDescLt (a b : SourceLinkedEvent) : Bool :=
  strLt b.event_date a.event_date

/-- `getSourceById`, demo branch: links sorted by relevance descending,
resolved against published events, then re-sorted by event date
descending (the later stable sort dominates; rank order only survives as
the tie-break). -/
def getSourceByIdFromDemo (ds : DemoDataset) (sourceId : String) : Option SourceDetail :=
  match ds.sources.find? (fun s => s.id == sourceId) with
  | none => none
  | some s =>
    let links := sortStable rankDescLt
      (ds.eventSources.filter (fun l => l.source_id == sourceId))
    let linked := links.filterMap (fun l =>
      (ds.events.find? (fun e => e.id == l.event_id && e.status == .published)).map
        (fun e => mkLinked e l))
    some (mkSourceDetail s (sortStable linkedDateDescLt linked))

/-- `ORDER BY e.event_date DESC, es.relevance_rank ASC`. -/
def liveLinkedLt (a b : SourceLinkedEvent) : Bool :=
  strLt b.event_date a.event_date ||
    (b.event_date == a.event_date && decide (a.relevance_rank < b.relevance_rank))

/-- `getSourceById`, live query against a store with the same relational
content as `ds`: event_sources ⋈ events restricted to published rows,
ordered by date descending then relevance ascending. -/
def getSourceByIdLive (ds : DemoDataset) (sourceId : String) : Option SourceDetail :=
  match ds.sources.find? (fun s => s.id == sourceId) with
  | none => none
  | some s =>
    let rows := (ds.eventSources.filter (fun l => l.source_id == sourceId)).flatMap
      (fun l => (ds.events.filter (fun e => e.id == l.event_id && e.status == .published)).map
        (fun e => mkLinked e l))
    some (mkSourceDetail s (sortStable liveLinkedLt rows))

/-! ### Availability classifier (src/web/src/lib/runtime.ts) -/

/-- `DB_UNAVAILABLE_PATTERNS`: the case-insensitive message patterns. -/
def dbUnavailablePatterns : List String :=
  ["DATABASE_URL is not set", "ECONNREFUSED", "ETIMEDOUT", "ENOTFOUND",
   "connection terminated", "could not connect to server", "failed to connect"]

def isDatabaseUnavailableMessage (message : String) : Bool :=
  dbUnavailablePatterns.any (fun p => containsCI message p)

/-- `/^(ECONNREFUSED|ETIMEDOUT|ENOTFOUND|ECONNRESET|EHOSTUNREACH)$/i`
on the machine error-code field; a missing or non-string code never
matches. -/
def isDbUnavailableCode : Option String → Bool
  | some c =>
      ["ECONNREFUSED", "ETIMEDOUT", "ENOTFOUND", "ECONNRESET", "EHOSTUNREACH"].any
        (fun p => lowerStr c == lowerStr p)
  | none => false

/-- An acyclic error-like value: optional message and code fields, an
optional wrapped cause, and an aggregated sub-error list (absent or
non-array `errors` is the empty list).  The `seen` identity set of the
source only prunes re-visits of shared or cyclic nodes and cannot change
the boolean result on the acyclic trees modelled here. -/
inductive JsError where
  | mk (message : Option String) (code : Option String)
      (cause : Option JsError) (errors : List JsError)

mutual

/-- `isUnavailableErrorTree`: the node's own message, its code field, its
wrapped cause (recursively), or any aggregated sub-error (recursively). -/
def isUnavailableErrorTree : JsError → Bool
  | .mk message code cause errors =>
      (match message with
        | some m => isDatabaseUnavailableMessage m
        | none => false) ||
      isDbUnavailableCode code ||
      (match cause with
        | some c => isUnavailableErrorTree c
        | none => false) ||
      anyUnavailableError errors

/-- `nested.some((item) => isUnavailableErrorTree(item, seen))`. -/
def anyUnavailableError : List JsError → Bool
  | [] => false
  | e :: es => isUnavailableErrorTree e || anyUnavailableError es

end

def isDatabaseUnavailableError (error : JsError) : Bool :=
  isUnavailableErrorTree error

/-! ### Response envelopes and the admin create-event route
(src/web/src/lib/api.ts, src/web/src/app/api/v1/admin/events/route.ts) -/

structure ErrorBody where
  code : String
  message : String
  deriving DecidableEq, Repr

/-- A JSON route response: either `{ data }` with a status, or
`{ error: { code, message } }` with a status. -/
inductive ApiResult (α : Type) where
  | ok (status : Nat) (data : α)
  | err (status : Nat) (body : ErrorBody)
  deriving DecidableEq, Repr

/-- `serverError` from src/web/src/lib/api.ts: an unavailability-shaped
message becomes a distinct 503 `SERVICE_UNAVAILABLE` envelope, anything
else a 500 `INTERNAL_ERROR`. -/
def serverError {α : Type} (message : String) : ApiResult α :=
  if isDatabaseUnavailableMessage message then
    .err 503 ⟨"SERVICE_UNAVAILABLE",
      "Database is unavailable. Configure DATABASE_URL or run demo mode."⟩
  else
    .err 500 ⟨"INTERNAL_ERROR", message⟩

/-- `requireAdmin`: `none` means the check passed. -/
def requireAdmin {α : Type} (role : Option String) : Option (ApiResult α) :=
  match role with
  | none => some (.err 401 ⟨"UNAUTHORIZED", "Missing x-role header"⟩)
  | some r =>
      if r == "admin" || r == "editor" then none
      else some (.err 403 ⟨"FORBIDDEN", "Admin or editor role required"⟩)

/-- A failure thrown by the database layer: the error message and the
driver's optional `code` field. -/
structure DbFailure where
  message : String
  code : Option String
  deriving DecidableEq, Repr

/-- The failure `getDbPool` throws when `DATABASE_URL` is unset
(src/web/src/lib/db.ts). -/
def dbUrlUnsetFailure : DbFailure := ⟨"DATABASE_URL is not set", none⟩

/-- `POST /api/v1/admin/events`: auth check, body validation, then
`createEvent` against the live store only — there is no demo fallback on
this path, so `db`'s outcome is the only data source.  A thrown failure
with Postgres code `23505` maps to 409, anything else to `serverError`. -/
def postAdminEvents {ι α : Type} (role : Option String)
    (validation : Except String ι) (db : ι → Except DbFailure α) : ApiResult α :=
  match requireAdmin (α := α) role with
  | some r => r
  | none =>
    match validation with
    | .error e => .err 400 ⟨"VALIDATION_ERROR", e⟩
    | .ok v =>
      match db v with
      | .ok record => .ok 201 record
      | .error f =>
          if f.code == some "23505" then .err 409 ⟨"CONFLICT", "event slug already exists"⟩
          else serverError f.message

/-- `GET /api/v1/sources/:id` in demo mode: the UUID gate, then the
demo-path lookup. -/
def getSourceRouteStatus (ds : DemoDataset) (id : String) : Nat :=
  if !isValidUuid id then 400
  else
    match getSourceByIdFromDemo ds id with
    | none => 404
    | some _ => 200

/-! ### Import-merge fallback (src/web/scripts/import-seed.mjs) -/

/-- `Map.prototype.set`: replace in place when the key exists, append
otherwise. -/
def jsMapSet {α : Type} (keyOf : α → String) (m : List (String × α)) (item : α) :
    List (String × α) :=
  let k := keyOf item
  if m.any (fun p => p.1 == k) then
    m.map (fun p => if p.1 == k then (k, item) else p)
  else m ++ [(k, item)]

/-- `mergeByKey`: set every base item then every incoming item into one
JS map and read the values back in insertion order — last write wins per
key. -/
def mergeByKey {α : Type} (keyOf : α → String) (baseItems incomingItems : List α) :
    List α :=
  ((baseItems ++ incomingItems).foldl (jsMapSet keyOf) []).map (·.2)

def sourceMergeKey (s : SeedSource) : String := s.source_url.trim

def eventMergeKey (e : SeedEvent) : String := (e.slug.getD "").trim

def linkMergeKey (l : SeedEventSource) : String :=
  l.event_slug.trim ++ "||" ++ l.source_url.trim

/-- `applyDemoFallback`, non-main branch: merge the incoming payload into
the main seed payload, deduplicating by the three natural keys. -/
def applyDemoFallback (mainPayload payload : SeedPayload) : SeedPayload :=
  { sources := mergeByKey sourceMergeKey mainPayload.sources payload.sources,
    events := mergeByKey eventMergeKey mainPayload.events payload.events,
    event_sources := mergeByKey linkMergeKey mainPayload.event_sources payload.event_sources }

/-- All synthetic identifiers of a built snapshot. -/
def datasetIds (ds : DemoDataset) : List String :=
  ds.sources.map (·.id) ++ ds.events.map (·.id) ++
    ds.tags.map (·.id) ++ ds.timelines.map (·.id)

/-! ## Supporting lemmas -/

theorem lastFind?_mem {α : Type} {p : α → Bool} {l : List α} {x : α}
    (h : lastFind? p l = some x) : x ∈ l ∧ p x = true := by
  unfold lastFind? at h
  exact ⟨List.mem_reverse.mp (List.mem_of_find?_eq_some h), List.find?_some h⟩

theorem length_filterMap_eq_count {α β : Type} (f : α → Option β) (l : List α) :
    (l.filterMap f).length = (l.filter (fun a => (f a).isSome)).length := by
  induction l with
  | nil => rfl
  | cons x xs ih =>
      cases hfx : f x with
      | none => simp [List.filterMap_cons, hfx, ih]
      | some b => simp [List.filterMap_cons, hfx, ih]

theorem isHexDigitB_of_lower {c : Char} (h : isLowerHexB c = true) :
    isHexDigitB c = true := by
  simp only [isLowerHexB, Bool.or_eq_true, Bool.and_eq_true] at h
  simp only [isHexDigitB, Bool.or_eq_true, Bool.and_eq_true]
  tauto

theorem hexRun_append {n : Nat} {seg : List Char} (rest : List Char)
    (hlen : seg.length = n) (hhex : ∀ c ∈ seg, isHexDigitB c = true) :
    hexRun n (seg ++ rest) = some rest := by
  induction n generalizing seg with
  | zero =>
      have hs : seg = [] := List.length_eq_zero.mp hlen
      subst hs; rfl
  | succ n ih =>
      cases seg with
      | nil => simp at hlen
      | cons c cs =>
          have hc : isHexDigitB c = true := hhex c (List.mem_cons_self c cs)
          have hcs : cs.length = n := by simpa using hlen
          simp only [List.cons_append, hexRun, hc, if_true]
          exact ih hcs (fun d hd => hhex d (List.mem_cons_of_mem c hd))

/-- The versioned format produced from any 64-character lowercase hex
digest passes the UUID validity check: the fixed version digit is `4`
and the fixed variant digit is `a`. -/
theorem uuidFormat_valid (l : List Char) (hlen : l.length = 64)
    (hall : ∀ c ∈ l, isLowerHexB c = true) :
    isValidUuid (String.mk
      (l.take 8 ++ '-' :: (l.drop 8).take 4 ++
        '-' :: '4' :: (l.drop 13).take 3 ++
        '-' :: 'a' :: (l.drop 17).take 3 ++
        '-' :: (l.drop 20).take 12)) = true := by
  have hseg : ∀ (m k : Nat), ∀ c ∈ (l.drop m).take k, isHexDigitB c = true := by
    intro m k c hc
    exact isHexDigitB_of_lower (hall c (List.mem_of_mem_drop (List.mem_of_mem_take hc)))
  have hlen' : ∀ m k : Nat, m + k ≤ 64 → ((l.drop m).take k).length = k := by
    intro m k hmk
    rw [List.length_take, List.length_drop, hlen]
    omega
  have h0 : ∀ c ∈ l.take 8, isHexDigitB c = true := by
    intro c hc
    exact isHexDigitB_of_lower (hall c (List.mem_of_mem_take hc))
  have hl0 : (l.take 8).length = 8 := by
    rw [List.length_take, hlen]; omega
  have hv : ∀ Z : List Char, expectVersion ('4' :: Z) = some Z := by
    intro Z
    simp only [expectVersion]
    rw [if_pos (by decide)]
  have hw : ∀ Z : List Char, expectVariant ('a' :: Z) = some Z := by
    intro Z
    simp only [expectVariant]
    rw [if_pos (by decide)]
  have e1 := hexRun_append
    ('-' :: (l.drop 8).take 4 ++ '-' :: '4' :: (l.drop 13).take 3 ++
      '-' :: 'a' :: (l.drop 17).take 3 ++ '-' :: (l.drop 20).take 12)
    hl0 h0
  have e2 := hexRun_append
    ('-' :: '4' :: (l.drop 13).take 3 ++ '-' :: 'a' :: (l.drop 17).take 3 ++
      '-' :: (l.drop 20).take 12)
    (hlen' 8 4 (by omega)) (hseg 8 4)
  have e3 := hexRun_append
    ('-' :: 'a' :: (l.drop 17).take 3 ++ '-' :: (l.drop 20).take 12)
    (hlen' 13 3 (by omega)) (hseg 13 3)
  have e4 := hexRun_append ('-' :: (l.drop 20).take 12)
    (hlen' 17 3 (by omega)) (hseg 17 3)
  have e5 : hexRun 12 ((l.drop 20).take 12) = some [] := by
    have := hexRun_append ([] : List Char) (hlen' 20 12 (by omega)) (hseg 20 12)
    simpa using this
  simp only [isValidUuid, String.toList]
  simp only [List.cons_append, List.append_assoc] at e1 e2 e3 e4 ⊢
  rw [e1]
  simp only [Option.some_bind, expectDash]
  rw [e2]
  simp only [Option.some_bind, expectDash]
  rw [hv]
  simp only [Option.some_bind]
  rw [e3]
  simp only [Option.some_bind, expectDash]
  rw [hw]
  simp only [Option.some_bind]
  rw [e4]
  simp only [Option.some_bind, expectDash]
  rw [e5]

theorem isValidUuid_stableUuid (h : String → String) (seed : String)
    (hh : isHex64 (h seed) = true) : isValidUuid (stableUuid h seed) = true := by
  have hlen : (h seed).toList.length = 64 := by
    simp only [isHex64, Bool.and_eq_true, beq_iff_eq, List.all_eq_true] at hh
    exact hh.1
  have hall : ∀ c ∈ (h seed).toList, isLowerHexB c = true := by
    simp only [isHex64, Bool.and_eq_true, beq_iff_eq, List.all_eq_true] at hh
    exact hh.2
  exact uuidFormat_valid (h seed).toList hlen hall

theorem isLowerHexB_hexDigitChar (n : Nat) : isLowerHexB (hexDigitChar (n % 16)) = true := by
  have hlt : n % 16 < 16 := Nat.mod_lt _ (by norm_num)
  set m := n % 16 with hm
  interval_cases m <;> decide

theorem sampleHash_isHex64 (s : String) : isHex64 (sampleHash s) = true := by
  simp only [isHex64, sampleHash, Bool.and_eq_true, beq_iff_eq, List.all_eq_true]
  constructor
  · show (((s.toList.flatMap charHexPair ++ List.replicate 64 'a').take 64)).length = 64
    rw [List.length_take, List.length_append, List.length_replicate]
    omega
  · intro c hc
    have hc' := List.mem_of_mem_take hc
    rcases List.mem_append.mp hc' with hfl | hrep
    · rcases List.mem_flatMap.mp hfl with ⟨d, _, hd⟩
      simp only [charHexPair, List.mem_cons, List.mem_singleton] at hd
      rcases hd with h1 | h2 | h3
      · rw [h1]; exact isLowerHexB_hexDigitChar _
      · rw [h2]; exact isLowerHexB_hexDigitChar _
      · cases h3
    · have : c = 'a' := List.eq_of_mem_replicate hrep
      rw [this]; decide

/-- Every tag record produced by `buildTags` carries the hash-derived id
of its own slug. -/
theorem buildTags_id_form (h : String → String) (events : List DemoEventRecord) :
    ∀ t ∈ (buildTags h events).1, t.id = stableUuid h ("tag:" ++ t.slug) := by
  suffices H : ∀ acc : List (String × DemoTagRecord) × List DemoEventTagRecord,
      (∀ pr ∈ acc.1, pr.2.id = stableUuid h ("tag:" ++ pr.2.slug)) →
      ∀ pr ∈ (events.foldl (buildTagsStep h) acc).1,
        pr.2.id = stableUuid h ("tag:" ++ pr.2.slug) by
    intro t ht
    simp only [buildTags] at ht
    rcases List.mem_map.mp ht with ⟨pr, hpr, hprt⟩
    rw [← hprt]
    exact H ([], []) (by simp) pr hpr
  intro acc hacc
  induction events generalizing acc with
  | nil => simpa using hacc
  | cons e es ih =>
      simp only [List.foldl_cons]
      apply ih
      intro pr hpr
      simp only [buildTagsStep] at hpr
      have hm : ∀ q ∈ (if acc.1.any (fun p => p.1 == normalizeSlug e.category) then acc.1
          else acc.1 ++ [(normalizeSlug e.category,
            { id := stableUuid h ("tag:" ++ normalizeSlug e.category),
              slug := normalizeSlug e.category, name := e.category })]),
          q.2.id = stableUuid h ("tag:" ++ q.2.slug) := by
        intro q hq
        by_cases hb : acc.1.any (fun p => p.1 == normalizeSlug e.category) = true
        · rw [if_pos hb] at hq
          exact hacc q hq
        · rw [if_neg hb] at hq
          rcases List.mem_append.mp hq with hold | hnew
          · exact hacc q hold
          · rcases List.mem_singleton.mp hnew with rfl
            rfl
      cases hfind : (if acc.1.any (fun p => p.1 == normalizeSlug e.category) then acc.1
          else acc.1 ++ [(normalizeSlug e.category,
            { id := stableUuid h ("tag:" ++ normalizeSlug e.category),
              slug := normalizeSlug e.category,
              name := e.category })]).find? (fun p => p.1 == normalizeSlug e.category) with
      | none =>
          rw [hfind] at hpr
          exact hm pr hpr
      | some t =>
          rw [hfind] at hpr
          exact hm pr hpr

/-! ## C3 — deterministic identifier derivation -/

/-- C3: building the in-memory dataset from the same seed payload with
the same digest function yields identical derived identifiers for every
source and every event, regardless of the build timestamps (the only
other input); hence two builds from byte-identical seed content agree on
every identifier. -/
theorem buildDataset_ids_deterministic (h : String → String) (p : SeedPayload)
    (n₁ n₂ : String) :
    (buildDataset h p n₁).sources.map (·.id) = (buildDataset h p n₂).sources.map (·.id) ∧
    (buildDataset h p n₁).events.map (·.id) = (buildDataset h p n₂).events.map (·.id) := by
  constructor <;>
  · simp only [buildDataset, buildSources, buildEvents, List.map_map]
    rfl

/-! ## C10 — derived identifiers pass the UUID validation gate -/

/-- C10: with a real SHA-256 hex digest (64 lowercase hex characters for
every input), every source, event, tag, and timeline identifier of the
built snapshot passes `isValidUuid` — the format fixes version digit `4`
and variant digit `a` — so a demo-mode id is never rejected by the
`id must be a UUID` gate of `GET /api/v1/sources/:id`. -/
theorem demo_ids_pass_uuid_gate (h : String → String)
    (hh : ∀ s, isHex64 (h s) = true) (p : SeedPayload) (n : String) :
    ∀ id_ ∈ datasetIds (buildDataset h p n),
      isValidUuid id_ = true ∧ getSourceRouteStatus (buildDataset h p n) id_ ≠ 400 := by
  intro i hi
  have hvalid : isValidUuid i = true := by
    simp only [datasetIds, List.mem_append] at hi
    rcases hi with ((hsrc | hev) | htag) | htl
    · simp only [buildDataset, buildSources, List.map_map, List.mem_map] at hsrc
      rcases hsrc with ⟨s, _, rfl⟩
      exact isValidUuid_stableUuid h _ (hh _)
    · simp only [buildDataset, buildEvents, List.map_map, List.mem_map] at hev
      rcases hev with ⟨e, _, rfl⟩
      exact isValidUuid_stableUuid h _ (hh _)
    · simp only [buildDataset, List.mem_map] at htag
      rcases htag with ⟨t, ht, rfl⟩
      rw [buildTags_id_form h _ t ht]
      exact isValidUuid_stableUuid h _ (hh _)
    · simp only [buildDataset, buildTimelines, mkTimeline, List.mem_map,
        List.mem_cons, List.mem_singleton] at htl
      rcases htl with ⟨t, ht, rfl⟩
      rcases ht with rfl | rfl | rfl | rfl | rfl | rfl | rfl | rfl | rfl | hfalse
      case _ => exact isValidUuid_stableUuid h _ (hh _)
      case _ => exact isValidUuid_stableUuid h _ (hh _)
      case _ => exact isValidUuid_stableUuid h _ (hh _)
      case _ => exact isValidUuid_stableUuid h _ (hh _)
      case _ => exact isValidUuid_stableUuid h _ (hh _)
      case _ => exact isValidUuid_stableUuid h _ (hh _)
      case _ => exact isValidUuid_stableUuid h _ (hh _)
      case _ => exact isValidUuid_stableUuid h _ (hh _)
      case _ => exact isValidUuid_stableUuid h _ (hh _)
      case _ => cases hfalse
  refine ⟨hvalid, ?_⟩
  unfold getSourceRouteStatus
  rw [hvalid]
  simp only [Bool.not_true, Bool.false_eq_true, if_false]
  cases getSourceByIdFromDemo (buildDataset h p n) i <;> simp

def uuidWitnessPayload : SeedPayload :=
  { sources := [{ source_name := "Src", source_url := "http://s" }],
    events := [{ slug := some "ev-a", title := "A", event_date := "2001-01-01",
                 region := "US", category := "C", summary := "S", impact := "I",
                 importance_score := 3, status := some EventStatus.published }] }

def uuidWitnessId : String := stableUuid sampleHash "source:http://s"

/-- C10 witness: the source id derived from the sample digest is a valid
UUID and is not rejected by the route gate. -/
theorem demo_ids_pass_uuid_gate_witness :
    isValidUuid uuidWitnessId = true ∧
    getSourceRouteStatus (buildDataset sampleHash uuidWitnessPayload "now") uuidWitnessId ≠ 400 :=
  demo_ids_pass_uuid_gate sampleHash sampleHash_isHex64 uuidWitnessPayload "now"
    uuidWitnessId (by decide)

/-! ## C4 — referential closure of event-source links -/

theorem resolveSeedLink_isSome (events : List DemoEventRecord)
    (sources : List DemoSourceRecord) (link : SeedEventSource) :
    (resolveSeedLink events sources link).isSome = seedLinkResolves events sources link := by
  unfold resolveSeedLink seedLinkResolves
  cases lastFind? (fun e => e.slug == normalizeSlug link.event_slug) events <;>
    cases lastFind? (fun s => s.source_url == link.source_url) sources <;> simp

/-- C4: every event-source link of a built snapshot references an event
id and a source id present in the snapshot's own collections, and the
number of kept links is exactly the number of seed links whose natural
keys resolve — unresolvable seed links are dropped without error. -/
theorem buildDataset_eventSources_closed (h : String → String) (p : SeedPayload)
    (n : String) :
    (∀ link ∈ (buildDataset h p n).eventSources,
      (∃ e ∈ (buildDataset h p n).events, e.id = link.event_id) ∧
      (∃ s ∈ (buildDataset h p n).sources, s.id = link.source_id)) ∧
    (buildDataset h p n).eventSources.length =
      (p.event_sources.filter
        (seedLinkResolves (buildEvents h p n) (buildSources h p n))).length := by
  constructor
  · intro link hlink
    simp only [buildDataset] at hlink ⊢
    rcases List.mem_filterMap.mp hlink with ⟨sl, _, hres⟩
    unfold resolveSeedLink at hres
    cases he : lastFind? (fun e => e.slug == normalizeSlug sl.event_slug)
        (buildEvents h p n) with
    | none => rw [he] at hres; cases hres
    | some e =>
      cases hs : lastFind? (fun s => s.source_url == sl.source_url)
          (buildSources h p n) with
      | none => rw [he, hs] at hres; cases hres
      | some s =>
          rw [he, hs] at hres
          injection hres with hres
          constructor
          · exact ⟨e, (lastFind?_mem he).1, by rw [← hres]⟩
          · exact ⟨s, (lastFind?_mem hs).1, by rw [← hres]⟩
  · simp only [buildDataset]
    rw [length_filterMap_eq_count]
    congr 1
    exact List.filter_congr (fun sl _ => resolveSeedLink_isSome _ _ sl)

def closureWitnessPayload : SeedPayload :=
  { sources := [{ source_name := "Src", source_url := "http://s" }],
    events := [{ slug := some "ev-a", title := "A", event_date := "2001-01-01",
                 region := "US", category := "C", summary := "S", impact := "I",
                 importance_score := 3, status := some EventStatus.published }],
    event_sources := [
      { event_slug := "ev-a", source_url := "http://s", relevance_rank := some 2 },
      { event_slug := "missing", source_url := "http://nowhere" }] }

def closureWitnessLink : DemoEventSourceRecord :=
  { event_id := stableUuid sampleHash "event:ev-a",
    source_id := stableUuid sampleHash "source:http://s",
    quote_excerpt := none, citation_note := none, relevance_rank := 2 }

/-- C4 witness: in a snapshot built from a seed with one resolvable and
one dangling link, the kept link's ids resolve inside the snapshot and
the dangling link was dropped (one kept link, one resolvable seed
link). -/
theorem buildDataset_eventSources_closed_witness :
    ((∃ e ∈ (buildDataset sampleHash closureWitnessPayload "now").events,
        e.id = closureWitnessLink.event_id) ∧
      (∃ s ∈ (buildDataset sampleHash closureWitnessPayload "now").sources,
        s.id = closureWitnessLink.source_id)) ∧
    (buildDataset sampleHash closureWitnessPayload "now").eventSources.length = 1 :=
  ⟨(buildDataset_eventSources_closed sampleHash closureWitnessPayload "now").1
      closureWitnessLink (by decide),
    by decide⟩

/-! ## C2 — published-only visibility in derived structures -/

theorem mem_seqFor {tid : String} {xs : List DemoEventRecord}
    {te : DemoTimelineEventRecord} (h : te ∈ seqFor tid xs) :
    ∃ e ∈ xs, te.event_id = e.id := by
  unfold seqFor at h
  rcases List.mem_map.mp h with ⟨⟨i, e⟩, hp, rfl⟩
  obtain ⟨-, hlt, hx⟩ := List.mem_enumFrom hp
  refine ⟨e, ?_, rfl⟩
  rw [hx]
  exact List.getElem_mem _

theorem optFilter_subset {α β : Type} (o : Option β) (p : β → α → Bool) (l : List α)
    {x : α} (hx : x ∈ optFilter o p l) : x ∈ l := by
  cases o with
  | none => exact hx
  | some v => exact List.mem_of_mem_filter hx

/-- Every item the demo listing returns is backed by a published event of
the dataset. -/
theorem mem_listDemo_items (ds : DemoDataset) (f : ListEventsFilters)
    {i : EventListItem} (hi : i ∈ (listPublishedEventsFromDemo ds f).items) :
    ∃ e ∈ ds.events, e.id = i.id ∧ e.status = .published := by
  unfold listPublishedEventsFromDemo at hi
  simp only at hi
  have h1 := List.mem_of_mem_take hi
  have h2 := List.mem_of_mem_drop h1
  have h3 := (perm_sortStable _ _).mem_iff.mp h2
  have h4 := optFilter_subset _ _ _ h3
  have h5 := optFilter_subset _ _ _ h4
  have h6 := optFilter_subset _ _ _ h5
  have h7 := optFilter_subset _ _ _ h6
  have h8 := optFilter_subset _ _ _ h7
  have h9 := optFilter_subset _ _ _ h8
  have h10 := optFilter_subset _ _ _ h9
  have h11 := optFilter_subset _ _ _ h10
  rcases List.mem_map.mp h11 with ⟨e, he, rfl⟩
  rcases List.mem_filter.mp he with ⟨hemem, hepub⟩
  exact ⟨e, hemem, rfl, by simpa using hepub⟩

/-- C2 (amended): in every built snapshot, every derived timeline
membership references a published event, and every item of the public
demo listing is backed by a published event.  (Derived tag
cross-references are not covered: `buildTags` runs over all events; see
the counterexample.) -/
theorem timelines_and_listings_published_only (h : String → String) (p : SeedPayload)
    (n : String) :
    (∀ te ∈ (buildDataset h p n).timelineEvents,
      ∃ e ∈ (buildDataset h p n).events, e.id = te.event_id ∧ e.status = .published) ∧
    (∀ f : ListEventsFilters,
      ∀ i ∈ (listPublishedEventsFromDemo (buildDataset h p n) f).items,
      ∃ e ∈ (buildDataset h p n).events, e.id = i.id ∧ e.status = .published) := by
  constructor
  · intro te hte
    have hpub : ∀ e ∈ sortStable eventDateAscLt
        ((buildEvents h p n).filter (fun e => e.status == EventStatus.published)),
        e ∈ buildEvents h p n ∧ e.status = .published := by
      intro e he
      have := (perm_sortStable _ _).mem_iff.mp he
      rcases List.mem_filter.mp this with ⟨hm, hs⟩
      exact ⟨hm, by simpa using hs⟩
    simp only [buildDataset, buildTimelines, List.mem_append] at hte
    have hcore : ∃ e ∈ sortStable eventDateAscLt
        ((buildEvents h p n).filter (fun e => e.status == EventStatus.published)),
        te.event_id = e.id := by
      rcases hte with (((((((h1 | h2) | h3) | h4) | h5) | h6) | h7) | h8) | h9
      · exact mem_seqFor h1
      · rcases mem_seqFor h2 with ⟨e, he, hid⟩
        exact ⟨e, List.mem_of_mem_filter he, hid⟩
      · rcases mem_seqFor h3 with ⟨e, he, hid⟩
        exact ⟨e, List.mem_of_mem_filter he, hid⟩
      · rcases mem_seqFor h4 with ⟨e, he, hid⟩
        exact ⟨e, List.mem_of_mem_filter he, hid⟩
      · rcases mem_seqFor h5 with ⟨e, he, hid⟩
        exact ⟨e, List.mem_of_mem_filter he, hid⟩
      · rcases mem_seqFor h6 with ⟨e, he, hid⟩
        exact ⟨e, List.mem_of_mem_filter he, hid⟩
      · rcases mem_seqFor h7 with ⟨e, he, hid⟩
        exact ⟨e, List.mem_of_mem_filter he, hid⟩
      · rcases mem_seqFor h8 with ⟨e, he, hid⟩
        exact ⟨e, List.mem_of_mem_filter he, hid⟩
      · rcases mem_seqFor h9 with ⟨e, he, hid⟩
        exact ⟨e, List.mem_of_mem_filter he, hid⟩
    rcases hcore with ⟨e, he, hid⟩
    rcases hpub e he with ⟨hm, hs⟩
    refine ⟨e, ?_, hid.symm, hs⟩
    simp only [buildDataset]
    exact hm
  · intro f i hi
    have := mem_listDemo_items (buildDataset h p n) f hi
    simpa only [buildDataset] using this

/-- A seed whose only event has no `status` field, so it defaults to
`draft`. -/
def tagLeakPayload : SeedPayload :=
  { events := [{ title := "D", event_date := "1990-01-01", region := "US",
                 category := "C", summary := "S", impact := "I",
                 importance_score := 2 }] }

/-- C2 counterexample: `buildTags` loops over *all* events, so the
snapshot built from `tagLeakPayload` has an `eventTags` row referencing a
draft event — refuting the claim that every event referenced by a
derived tag cross-reference is published. -/
theorem buildTags_references_draft_event :
    ∃ et ∈ (buildDataset sampleHash tagLeakPayload "now").eventTags,
      ∃ e ∈ (buildDataset sampleHash tagLeakPayload "now").events,
        e.id = et.event_id ∧ e.status = .draft := by decide

def pubWitnessPayload : SeedPayload :=
  { events := [{ slug := some "ev-a", title := "A", event_date := "2001-01-01",
                 region := "US", category := "C", summary := "S", impact := "I",
                 importance_score := 3, status := some EventStatus.published }] }

def pubWitnessTimelineEvent : DemoTimelineEventRecord :=
  { timeline_id := stableUuid sampleHash "timeline:global-financial-turning-points",
    event_id := stableUuid sampleHash "event:ev-a", sequence_no := 1 }

def pubWitnessItem : EventListItem :=
  { id := stableUuid sampleHash "event:ev-a", slug := "ev-a", title := "A",
    event_date := "2001-01-01", region := "US", category := "C", summary := "S",
    importance_score := 3, confidence_score := 3, source_count := 0, tags := ["c"] }

def pubWitnessFilters : ListEventsFilters :=
  { page := 1, pageSize := 10, sort := .date_desc }

/-- C2 witness: a concrete timeline membership row and a concrete listing
item both resolve to a published event. -/
theorem timelines_and_listings_published_only_witness :
    (∃ e ∈ (buildDataset sampleHash pubWitnessPayload "now").events,
      e.id = pubWitnessTimelineEvent.event_id ∧ e.status = .published) ∧
    (∃ e ∈ (buildDataset sampleHash pubWitnessPayload "now").events,
      e.id = pubWitnessItem.id ∧ e.status = .published) :=
  ⟨(timelines_and_listings_published_only sampleHash pubWitnessPayload "now").1
      pubWitnessTimelineEvent (by decide),
    (timelines_and_listings_published_only sampleHash pubWitnessPayload "now").2
      pubWitnessFilters pubWitnessItem (by decide)⟩

/-! ## C7 — availability classifier message signatures -/

mutual

/-- Spec-side deep predicate: some node of the error tree (following
`cause` links and `errors` lists) has a message matching one of the
seven coded message patterns. -/
def hasUnavailableMessageDeep : JsError → Bool
  | .mk message _ cause errors =>
      (match message with
        | some m => isDatabaseUnavailableMessage m
        | none => false) ||
      (match cause with
        | some c => hasUnavailableMessageDeep c
        | none => false) ||
      anyUnavailableMessageDeep errors

def anyUnavailableMessageDeep : List JsError → Bool
  | [] => false
  | e :: es => hasUnavailableMessageDeep e || anyUnavailableMessageDeep es

end

mutual

theorem unavTree_of_msgDeep : ∀ e : JsError,
    hasUnavailableMessageDeep e = true → isUnavailableErrorTree e = true
  | .mk msg code cause errors => fun he => by
      rw [hasUnavailableMessageDeep.eq_def] at he
      rw [isUnavailableErrorTree.eq_def]
      simp only [Bool.or_eq_true] at he ⊢
      rcases he with (hmsg | hcause) | herrs
      · exact Or.inl (Or.inl (Or.inl hmsg))
      · cases cause with
        | none => cases hcause
        | some c => exact Or.inl (Or.inr (unavTree_of_msgDeep c hcause))
      · exact Or.inr (unavTree_of_msgDeep_list errors herrs)

theorem unavTree_of_msgDeep_list : ∀ es : List JsError,
    anyUnavailableMessageDeep es = true → anyUnavailableError es = true
  | [] => fun h => by rw [anyUnavailableMessageDeep.eq_def] at h; cases h
  | e :: es => fun h => by
      rw [anyUnavailableMessageDeep.eq_def] at h
      rw [anyUnavailableError.eq_def]
      simp only [Bool.or_eq_true] at h ⊢
      rcases h with he | hes
      · exact Or.inl (unavTree_of_msgDeep e he)
      · exact Or.inr (unavTree_of_msgDeep_list es hes)

end

/-- C7 (amended): for every error-like value in which one of the *seven*
message signatures actually coded in `DB_UNAVAILABLE_PATTERNS`
(unset-configuration, ECONNREFUSED, ETIMEDOUT, ENOTFOUND, "connection
terminated", "could not connect to server", "failed to connect") appears
in the message of the value itself, of a nested cause, or of an element
of an aggregated error list, the classifier returns true.
Connection-reset and host-unreachable are recognised only through the
machine `code` field, not the message. -/
theorem classifier_detects_nested_message_signatures (e : JsError)
    (he : hasUnavailableMessageDeep e = true) :
    isDatabaseUnavailableError e = true :=
  unavTree_of_msgDeep e he

/-- The message signature list asserted by the claim (it additionally
lists connection-reset and host-unreachable as message signatures). -/
def claimedMessageSignatures : List String :=
  ["DATABASE_URL is not set", "ECONNREFUSED", "ETIMEDOUT", "ENOTFOUND",
   "ECONNRESET", "EHOSTUNREACH", "connection terminated",
   "could not connect to server", "failed to connect"]

def connResetError : JsError := .mk (some "ECONNRESET") none none []

/-- C7 counterexample: an error whose message is `ECONNRESET` — a
connection-reset signature per the claim — is classified `false`,
because the coded message pattern list has no ECONNRESET entry (only the
code field matcher does). -/
theorem classifier_misses_connreset_message :
    claimedMessageSignatures.any (fun p => containsCI "ECONNRESET" p) = true ∧
    isDatabaseUnavailableError connResetError = false := by
  constructor
  · decide
  · decide

/-- C7 witness: a wrapped cause carrying a timeout message is classified
unavailable. -/
theorem classifier_detects_nested_message_signatures_witness :
    isDatabaseUnavailableError
      (.mk none none (some (.mk (some "connect ETIMEDOUT 10.0.0.1:5432") none none [])) []) =
      true :=
  classifier_detects_nested_message_signatures _ (by decide)

/-! ## C8 — writes surface 503 SERVICE_UNAVAILABLE, never fall back -/

/-- C8: when the live store rejects the admin create-event write with an
unavailability-shaped failure (the unset-configuration throw of
`getDbPool`, a refused connection, a timeout, ...), the route answers
with the distinct 503 `SERVICE_UNAVAILABLE` envelope; in particular it
never returns a created record.  The route model contains no demo-store
branch at all: the database outcome is its only data source. -/
theorem admin_create_event_unavailable_surfaces_503 {ι α : Type} (v : ι)
    (db : ι → Except DbFailure α) (f : DbFailure)
    (hdb : db v = .error f) (hmsg : isDatabaseUnavailableMessage f.message = true)
    (hcode : f.code ≠ some "23505") :
    postAdminEvents (some "admin") (.ok v) db =
      .err 503 ⟨"SERVICE_UNAVAILABLE",
        "Database is unavailable. Configure DATABASE_URL or run demo mode."⟩ ∧
    ∀ (st : Nat) (a : α), postAdminEvents (some "admin") (.ok v) db ≠ .ok st a := by
  have hc : (f.code == some "23505") = false := beq_eq_false_iff_ne.mpr hcode
  have hmain : postAdminEvents (some "admin") (.ok v) db =
      .err 503 ⟨"SERVICE_UNAVAILABLE",
        "Database is unavailable. Configure DATABASE_URL or run demo mode."⟩ := by
    unfold postAdminEvents requireAdmin
    simp only [hdb]
    rw [hc]
    simp only [Bool.false_eq_true, if_false, serverError, hmsg, if_true]
    rfl
  refine ⟨hmain, ?_⟩
  intro st a
  rw [hmain]
  intro hcontra
  cases hcontra

/-- C8 witness: `createEvent` with `DATABASE_URL` unset throws the
unset-configuration failure, and the route returns the 503 envelope. -/
theorem admin_create_event_unavailable_surfaces_503_witness :
    postAdminEvents (some "admin") (.ok ())
        (fun _ : Unit => (.error dbUrlUnsetFailure : Except DbFailure Unit)) =
      .err 503 ⟨"SERVICE_UNAVAILABLE",
        "Database is unavailable. Configure DATABASE_URL or run demo mode."⟩ :=
  (admin_create_event_unavailable_surfaces_503 () _ dbUrlUnsetFailure rfl
    (by decide) (by decide)).1

/-! ## C9 — idempotence of the import-merge fallback -/

/-- Well-formedness of a JS map's entry list: keys are distinct and every
entry is stored under its own key. -/
def canonMap {α : Type} (keyOf : α → String) (m : List (String × α)) : Prop :=
  (m.map (·.1)).Nodup ∧ ∀ p ∈ m, keyOf p.2 = p.1

def lookupKey {α : Type} (m : List (String × α)) (k : String) : Option α :=
  (m.find? (fun p => p.1 == k)).map (·.2)

/-- Key-set evolution of one `Map.set`. -/
def insKey (ks : List String) (k : String) : List String :=
  if k ∈ ks then ks else ks ++ [k]

theorem any_key_iff {α : Type} (m : List (String × α)) (k : String) :
    m.any (fun p => p.1 == k) = true ↔ k ∈ m.map (·.1) := by
  simp [List.any_eq_true, List.mem_map, beq_iff_eq]

theorem keys_jsMapSet {α : Type} (keyOf : α → String) (m : List (String × α)) (x : α) :
    (jsMapSet keyOf m x).map (·.1) = insKey (m.map (·.1)) (keyOf x) := by
  by_cases hb : m.any (fun p => p.1 == keyOf x) = true
  · have hk : keyOf x ∈ m.map (·.1) := (any_key_iff m (keyOf x)).mp hb
    simp only [jsMapSet, if_pos hb, insKey, if_pos hk, List.map_map]
    apply List.map_congr_left
    intro p _
    by_cases hpk : (p.1 == keyOf x) = true
    · simp only [Function.comp_apply, if_pos hpk]
      exact (beq_iff_eq.mp hpk).symm
    · simp only [Function.comp_apply, if_neg hpk]
  · have hk : keyOf x ∉ m.map (·.1) := fun hc => hb ((any_key_iff m (keyOf x)).mpr hc)
    simp only [jsMapSet, if_neg hb, insKey, if_neg hk, List.map_append]
    rfl

theorem keys_foldl_jsMapSet {α : Type} (keyOf : α → String) (i : List α) :
    ∀ m : List (String × α),
      (List.foldl (jsMapSet keyOf) m i).map (·.1) =
        List.foldl insKey (m.map (·.1)) (i.map keyOf) := by
  induction i with
  | nil => intro m; rfl
  | cons x xs ih =>
      intro m
      simp only [List.foldl_cons, List.map_cons]
      rw [ih, keys_jsMapSet]

theorem mem_insKey_of_mem {ks : List String} {k : String} (k' : String) (h : k ∈ ks) :
    k ∈ insKey ks k' := by
  unfold insKey
  by_cases hk : k' ∈ ks
  · rw [if_pos hk]; exact h
  · rw [if_neg hk]; exact List.mem_append_left _ h

theorem mem_foldl_insKey_of_mem {k : String} (l : List String) :
    ∀ ks : List String, k ∈ ks → k ∈ List.foldl insKey ks l := by
  induction l with
  | nil => intro ks h; exact h
  | cons x xs ih =>
      intro ks h
      exact ih _ (mem_insKey_of_mem x h)

theorem mem_foldl_insKey_of_mem_list {k : String} (l : List String) (ks : List String)
    (h : k ∈ l) : k ∈ List.foldl insKey ks l := by
  induction l generalizing ks with
  | nil => cases h
  | cons x xs ih =>
      simp only [List.foldl_cons]
      rcases List.mem_cons.mp h with rfl | hxs
      · apply mem_foldl_insKey_of_mem xs
        unfold insKey
        by_cases hk : k ∈ ks
        · rw [if_pos hk]; exact hk
        · rw [if_neg hk]; exact List.mem_append_right _ (List.mem_singleton_self k)
      · exact ih (insKey ks x) hxs

theorem foldl_insKey_absorb (l : List String) :
    ∀ ks : List String, (∀ k ∈ l, k ∈ ks) → List.foldl insKey ks l = ks := by
  induction l with
  | nil => intro ks _; rfl
  | cons x xs ih =>
      intro ks h
      have hx : x ∈ ks := h x (List.mem_cons_self x xs)
      simp only [List.foldl_cons, insKey, if_pos hx]
      exact ih ks (fun k hk => h k (List.mem_cons_of_mem x hk))

theorem find?_congr_pred {α : Type} {p q : α → Bool} (l : List α)
    (h : ∀ a ∈ l, p a = q a) : l.find? p = l.find? q := by
  induction l with
  | nil => rfl
  | cons a as ih =>
      rw [List.find?_cons, List.find?_cons, h a (List.mem_cons_self a as)]
      cases q a with
      | true => rfl
      | false => exact ih (fun b hb => h b (List.mem_cons_of_mem a hb))

theorem lookupKey_jsMapSet {α : Type} (keyOf : α → String) (m : List (String × α))
    (x : α) (k : String) :
    lookupKey (jsMapSet keyOf m x) k =
      if k = keyOf x then some x else lookupKey m k := by
  by_cases hb : m.any (fun p => p.1 == keyOf x) = true
  · simp only [jsMapSet, if_pos hb, lookupKey]
    rw [List.find?_map, Option.map_map]
    have hpred : m.find? ((fun p : String × α => p.1 == k) ∘
        (fun p => if p.1 == keyOf x then (keyOf x, x) else p)) =
        m.find? (fun p => p.1 == k) := by
      apply find?_congr_pred
      intro p _
      by_cases hpk : (p.1 == keyOf x) = true
      · simp only [Function.comp_apply, if_pos hpk]
        rw [beq_iff_eq.mp hpk]
      · simp only [Function.comp_apply, if_neg hpk]
    rw [hpred]
    by_cases hk : k = keyOf x
    · subst hk
      have hsome : (m.find? (fun p => p.1 == keyOf x)).isSome = true :=
        List.find?_isSome.mpr (List.any_eq_true.mp hb)
      rcases Option.isSome_iff_exists.mp hsome with ⟨p₀, hfind⟩
      have hp₀ := List.find?_some hfind
      rw [hfind, if_pos rfl]
      simp only [Option.map_some', Function.comp_apply, if_pos hp₀]
    · rw [if_neg hk]
      cases hfind : m.find? (fun p => p.1 == k) with
      | none => rfl
      | some p₀ =>
          have hp₀ : (p₀.1 == k) = true := by
            have := List.find?_some hfind
            exact this
          have hne : (p₀.1 == keyOf x) = false := by
            refine beq_eq_false_iff_ne.mpr ?_
            rw [beq_iff_eq.mp hp₀]
            exact fun hc => hk hc
          simp only [Option.map_some', Function.comp_apply, hne, Bool.false_eq_true,
            if_false]
  · have hall : ∀ p ∈ m, (p.1 == keyOf x) = false := by
      intro p hp
      cases hv : (p.1 == keyOf x) with
      | false => rfl
      | true => exact absurd (List.any_eq_true.mpr ⟨p, hp, hv⟩) hb
    simp only [jsMapSet, if_neg hb, lookupKey]
    rw [List.find?_append]
    by_cases hk : k = keyOf x
    · subst hk
      have hnone : m.find? (fun p => p.1 == keyOf x) = none :=
        List.find?_eq_none.mpr (fun p hp => by rw [hall p hp]; exact fun h => Bool.false_ne_true h)
      rw [hnone, Option.none_or, if_pos rfl]
      rw [List.find?_cons]
      have : ((keyOf x, x).1 == keyOf x) = true := beq_self_eq_true _
      simp only [this]
      rfl
    · rw [if_neg hk]
      have hsing : [((keyOf x, x) : String × α)].find? (fun p => p.1 == k) = none := by
        rw [List.find?_cons]
        have : ((keyOf x, x).1 == k) = false :=
          beq_eq_false_iff_ne.mpr (fun hc => hk hc.symm)
        simp only [this]
        rfl
      rw [hsing, Option.or_none]

/-- Lookup after folding `Map.set` over a batch: the last batch item with
the key wins, otherwise the base map answers. -/
theorem lookupKey_foldl_jsMapSet {α : Type} (keyOf : α → String) (i : List α) :
    ∀ (m : List (String × α)) (k : String),
      lookupKey (List.foldl (jsMapSet keyOf) m i) k =
        match lastFind? (fun x => keyOf x == k) i with
        | some x => some x
        | none => lookupKey m k := by
  induction i with
  | nil => intro m k; rfl
  | cons x xs ih =>
      intro m k
      simp only [List.foldl_cons]
      rw [ih]
      have hrev : lastFind? (fun y => keyOf y == k) (x :: xs) =
          ((lastFind? (fun y => keyOf y == k) xs).or
            ([x].find? (fun y => keyOf y == k))) := by
        unfold lastFind?
        rw [List.reverse_cons, List.find?_append]
      rw [hrev]
      cases hxs : lastFind? (fun y => keyOf y == k) xs with
      | some y => rfl
      | none =>
          simp only [Option.none_or]
          rw [List.find?_cons]
          by_cases hk : keyOf x == k
          · simp only [hk]
            rw [lookupKey_jsMapSet, if_pos (beq_iff_eq.mp hk).symm]
          · have hk' : (keyOf x == k) = false := by
              cases hv : (keyOf x == k) with
              | false => rfl
              | true => exact absurd hv hk
            simp only [hk']
            rw [lookupKey_jsMapSet,
              if_neg (fun hc => hk (by rw [hc]; exact beq_self_eq_true _))]
            rfl

theorem canonMap_jsMapSet {α : Type} (keyOf : α → String) (m : List (String × α))
    (x : α) (hc : canonMap keyOf m) : canonMap keyOf (jsMapSet keyOf m x) := by
  rcases hc with ⟨hnd, hent⟩
  constructor
  · rw [keys_jsMapSet]
    unfold insKey
    by_cases hk : keyOf x ∈ m.map (·.1)
    · rw [if_pos hk]; exact hnd
    · rw [if_neg hk]
      rw [List.nodup_append]
      exact ⟨hnd, List.nodup_singleton _, fun a ha hb => hk (by
        rcases List.mem_singleton.mp hb with rfl
        exact ha)⟩
  · intro p hp
    unfold jsMapSet at hp
    by_cases hb : m.any (fun q => q.1 == keyOf x) = true
    · rw [if_pos hb] at hp
      rcases List.mem_map.mp hp with ⟨q, hq, rfl⟩
      by_cases hqk : (q.1 == keyOf x) = true
      · simp only [if_pos hqk]
      · simp only [if_neg hqk]
        exact hent q hq
    · rw [if_neg hb] at hp
      rcases List.mem_append.mp hp with hold | hnew
      · exact hent p hold
      · rcases List.mem_singleton.mp hnew with rfl
        rfl

theorem canonMap_foldl {α : Type} (keyOf : α → String) (i : List α) :
    ∀ m : List (String × α), canonMap keyOf m →
      canonMap keyOf (List.foldl (jsMapSet keyOf) m i) := by
  induction i with
  | nil => intro m hm; exact hm
  | cons x xs ih =>
      intro m hm
      simp only [List.foldl_cons]
      exact ih _ (canonMap_jsMapSet keyOf m x hm)

theorem canonMap_nil {α : Type} (keyOf : α → String) : canonMap keyOf [] :=
  ⟨List.nodup_nil, by intro p hp; cases hp⟩

theorem foldl_jsMapSet_cons_of_ne {α : Type} (keyOf : α → String) (k : String) (v : α)
    (l : List α) (hl : ∀ x ∈ l, keyOf x ≠ k) :
    ∀ m : List (String × α),
      List.foldl (jsMapSet keyOf) ((k, v) :: m) l =
        (k, v) :: List.foldl (jsMapSet keyOf) m l := by
  induction l with
  | nil => intro m; rfl
  | cons x xs ih =>
      intro m
      have hx : keyOf x ≠ k := hl x (List.mem_cons_self x xs)
      have hkx : (k == keyOf x) = false := beq_eq_false_iff_ne.mpr (fun hc => hx hc.symm)
      have hstep : jsMapSet keyOf ((k, v) :: m) x = (k, v) :: jsMapSet keyOf m x := by
        simp only [jsMapSet, List.any_cons, hkx, Bool.false_or]
        by_cases hb : m.any (fun q => q.1 == keyOf x) = true
        · rw [if_pos hb, if_pos hb, List.map_cons]
          simp only [hkx, Bool.false_eq_true, if_false]
        · rw [if_neg hb, if_neg hb, List.cons_append]
      simp only [List.foldl_cons, hstep]
      exact ih (fun y hy => hl y (List.mem_cons_of_mem x hy)) (jsMapSet keyOf m x)

/-- Rebuilding a JS map from its values reproduces the map exactly. -/
theorem foldl_jsMapSet_rebuild {α : Type} (keyOf : α → String) :
    ∀ m : List (String × α), canonMap keyOf m →
      List.foldl (jsMapSet keyOf) [] (m.map (·.2)) = m := by
  intro m
  induction m with
  | nil => intro _; rfl
  | cons p m' ih =>
      rintro ⟨hnd, hent⟩
      rw [List.map_cons, List.nodup_cons] at hnd
      rcases hnd with ⟨hknot, hnd'⟩
      have hkv : keyOf p.2 = p.1 := hent p (List.mem_cons_self p m')
      have hcanon' : canonMap keyOf m' :=
        ⟨hnd', fun q hq => hent q (List.mem_cons_of_mem p hq)⟩
      simp only [List.map_cons, List.foldl_cons]
      have hset : jsMapSet keyOf [] p.2 = [(p.1, p.2)] := by
        unfold jsMapSet
        simp [hkv]
      rw [hset]
      have hne : ∀ x ∈ m'.map (·.2), keyOf x ≠ p.1 := by
        intro x hx
        rcases List.mem_map.mp hx with ⟨q, hq, rfl⟩
        rw [hent q (List.mem_cons_of_mem p hq)]
        intro hc
        exact hknot (hc ▸ List.mem_map_of_mem (·.1) hq)
      rw [foldl_jsMapSet_cons_of_ne keyOf p.1 p.2 _ hne, ih hcanon']

/-- Extensionality of canonical JS maps: equal key sequences and equal
lookups force equal entry lists. -/
theorem canonMap_ext {α : Type} (keyOf : α → String) :
    ∀ m₁ m₂ : List (String × α), canonMap keyOf m₁ → canonMap keyOf m₂ →
      m₁.map (·.1) = m₂.map (·.1) →
      (∀ k, lookupKey m₁ k = lookupKey m₂ k) → m₁ = m₂ := by
  intro m₁
  induction m₁ with
  | nil =>
      intro m₂ _ _ hkeys _
      exact (List.map_eq_nil_iff.mp hkeys.symm).symm
  | cons p m₁' ih =>
      intro m₂ hc₁ hc₂ hkeys hlook
      cases m₂ with
      | nil => simp at hkeys
      | cons q m₂' =>
          simp only [List.map_cons, List.cons.injEq] at hkeys
          rcases hkeys with ⟨hpq, htl⟩
          have hlookp : lookupKey (p :: m₁') p.1 = some p.2 := by
            unfold lookupKey
            rw [List.find?_cons]
            simp [beq_self_eq_true]
          have hlookq : lookupKey (q :: m₂') p.1 = some q.2 := by
            unfold lookupKey
            rw [List.find?_cons]
            simp [hpq, beq_self_eq_true]
          have hval : p.2 = q.2 := by
            have := hlook p.1
            rw [hlookp, hlookq] at this
            exact Option.some.inj this
          have hpq' : p = q := Prod.ext hpq hval
          subst hpq'
          rcases hc₁ with ⟨hnd₁, hent₁⟩
          rcases hc₂ with ⟨hnd₂, hent₂⟩
          rw [List.map_cons, List.nodup_cons] at hnd₁ hnd₂
          rcases hnd₁ with ⟨hn₁, hnd₁'⟩
          rcases hnd₂ with ⟨hn₂, hnd₂'⟩
          have htails : ∀ k, lookupKey m₁' k = lookupKey m₂' k := by
            intro k
            by_cases hk : k = p.1
            · subst hk
              have h₁ : lookupKey m₁' p.1 = none := by
                unfold lookupKey
                rw [List.find?_eq_none.mpr]
                · rfl
                · intro q' hq' hbad
                  exact hn₁ ((beq_iff_eq.mp hbad) ▸ List.mem_map_of_mem (·.1) hq')
              have h₂ : lookupKey m₂' p.1 = none := by
                unfold lookupKey
                rw [List.find?_eq_none.mpr]
                · rfl
                · intro q' hq' hbad
                  exact hn₂ ((beq_iff_eq.mp hbad) ▸ List.mem_map_of_mem (·.1) hq')
              rw [h₁, h₂]
            · have := hlook k
              have hhead : (p.1 == k) = false :=
                beq_eq_false_iff_ne.mpr (fun hc => hk hc.symm)
              unfold lookupKey at this ⊢
              rw [List.find?_cons, List.find?_cons] at this
              simp only [hhead] at this
              exact this
          have : m₁' = m₂' := ih m₂' ⟨hnd₁', fun q' hq' => hent₁ q' (List.mem_cons_of_mem p hq')⟩
            ⟨hnd₂', fun q' hq' => hent₂ q' (List.mem_cons_of_mem p hq')⟩ htl htails
          rw [this]

/-- Re-applying the same incoming batch leaves the merged map
untouched: every incoming key is already present with the batch's own
last value. -/
theorem foldl_jsMapSet_stable {α : Type} (keyOf : α → String) (b i : List α) :
    List.foldl (jsMapSet keyOf) (List.foldl (jsMapSet keyOf) [] (b ++ i)) i =
      List.foldl (jsMapSet keyOf) [] (b ++ i) := by
  have hcanonM : canonMap keyOf (List.foldl (jsMapSet keyOf) [] (b ++ i)) :=
    canonMap_foldl keyOf (b ++ i) [] (canonMap_nil keyOf)
  have hcanonL : canonMap keyOf
      (List.foldl (jsMapSet keyOf) (List.foldl (jsMapSet keyOf) [] (b ++ i)) i) :=
    canonMap_foldl keyOf i _ hcanonM
  apply canonMap_ext keyOf _ _ hcanonL hcanonM
  · rw [keys_foldl_jsMapSet]
    apply foldl_insKey_absorb
    intro k hk
    rw [List.foldl_append, keys_foldl_jsMapSet]
    exact mem_foldl_insKey_of_mem_list _ _ hk
  · intro k
    rw [lookupKey_foldl_jsMapSet]
    cases hlf : lastFind? (fun x => keyOf x == k) i with
    | some y =>
        rw [List.foldl_append, lookupKey_foldl_jsMapSet, hlf]
    | none => rfl

/-- `mergeByKey` is idempotent in its incoming batch: merging the same
batch into the merge result changes nothing. -/
theorem mergeByKey_idem {α : Type} (keyOf : α → String) (b i : List α) :
    mergeByKey keyOf (mergeByKey keyOf b i) i = mergeByKey keyOf b i := by
  unfold mergeByKey
  have hcanonM : canonMap keyOf (List.foldl (jsMapSet keyOf) [] (b ++ i)) :=
    canonMap_foldl keyOf (b ++ i) [] (canonMap_nil keyOf)
  rw [List.foldl_append
    (jsMapSet keyOf) []
    ((List.foldl (jsMapSet keyOf) [] (b ++ i)).map (·.2)) i]
  rw [foldl_jsMapSet_rebuild keyOf _ hcanonM]
  rw [foldl_jsMapSet_stable keyOf b i]

/-- C9: applying the import-merge fallback twice with the same non-main
payload yields the identical merged seed payload; in particular the
`sources`, `events`, and `event_sources` arrays keep their lengths after
the second application. -/
theorem import_merge_fallback_idempotent (m p : SeedPayload) :
    applyDemoFallback (applyDemoFallback m p) p = applyDemoFallback m p ∧
    (applyDemoFallback (applyDemoFallback m p) p).sources.length =
      (applyDemoFallback m p).sources.length ∧
    (applyDemoFallback (applyDemoFallback m p) p).events.length =
      (applyDemoFallback m p).events.length ∧
    (applyDemoFallback (applyDemoFallback m p) p).event_sources.length =
      (applyDemoFallback m p).event_sources.length := by
  have hmain : applyDemoFallback (applyDemoFallback m p) p = applyDemoFallback m p := by
    simp only [applyDemoFallback]
    rw [mergeByKey_idem sourceMergeKey m.sources p.sources,
      mergeByKey_idem eventMergeKey m.events p.events,
      mergeByKey_idem linkMergeKey m.event_sources p.event_sources]
  exact ⟨hmain, by rw [hmain], by rw [hmain], by rw [hmain]⟩

/-! ## Shared infrastructure for the dual-path read equivalences -/

theorem option_toList_map {α β : Type} (f : α → β) (o : Option α) :
    (o.map f).toList = o.toList.map f := by
  cases o <;> rfl

/-- When at most one element can satisfy `p` (all satisfying elements
share the projection value `k` and projections are distinct), filtering
equals the first-match lookup. -/
theorem filter_eq_find?_toList {α β : Type} (f : α → β) (p : α → Bool) (k : β)
    (l : List α) (hnd : (l.map f).Nodup) (hp : ∀ x, p x = true → f x = k) :
    l.filter p = (l.find? p).toList := by
  induction l with
  | nil => rfl
  | cons a as ih =>
      rw [List.map_cons, List.nodup_cons] at hnd
      rcases hnd with ⟨hfa, hnd'⟩
      rw [List.filter_cons, List.find?_cons]
      cases hpa : p a with
      | true =>
          simp only [if_true]
          have hnil : as.filter p = [] := by
            rw [List.filter_eq_nil_iff]
            intro x hx hpx
            have : f x = f a := by rw [hp x hpx, hp a hpa]
            exact hfa (this ▸ List.mem_map_of_mem f hx)
          rw [hnil]
          rfl
      | false =>
          simp only [Bool.false_eq_true, if_false]
          exact ih hnd'

/-- Under distinct tag ids, the live join's per-event tag resolution
equals the demo path's first-match resolution. -/
theorem liveTags_eq_demoItemTags (ds : DemoDataset)
    (hnd : (ds.tags.map (·.id)).Nodup) (eid : String) :
    liveTags ds eid = demoItemTags ds eid := by
  unfold liveTags demoItemTags demoTagSlugsRaw
  congr 1
  apply filterMap_eq_flatMap
  intro et
  rw [filter_eq_find?_toList (·.id) (fun t => t.id == et.tag_id) et.tag_id ds.tags hnd
    (fun t ht => beq_iff_eq.mp ht)]
  rw [option_toList_map]

/-- Under distinct tag ids, a live listing row equals the demo listing
item for the same event. -/
theorem liveRowOf_eq_demoItemOf (ds : DemoDataset)
    (hnd : (ds.tags.map (·.id)).Nodup) (e : DemoEventRecord) :
    liveRowOf ds e = demoItemOf ds e := by
  unfold liveRowOf demoItemOf
  rw [liveTags_eq_demoItemTags ds hnd e.id]

/-- Under distinct tag ids, the demo path's `item.tags.includes(tag)`
agrees with the live path's `EXISTS` clause. -/
theorem demoTags_contains_eq_liveTagExists (ds : DemoDataset)
    (hnd : (ds.tags.map (·.id)).Nodup) (eid t : String) :
    (demoItemTags ds eid).contains t = liveTagExists ds eid t := by
  rw [Bool.eq_iff_iff]
  rw [List.contains_iff_exists_mem_beq]
  constructor
  · rintro ⟨t', ht', hbeq⟩
    have ht'' : t' ∈ demoTagSlugsRaw ds eid :=
      (perm_sortStable strLt _).mem_iff.mp ht'
    rcases List.mem_filterMap.mp ht'' with ⟨et, hetf, hres⟩
    rcases List.mem_filter.mp hetf with ⟨hetm, hetid⟩
    cases hfind : ds.tags.find? (fun tg => tg.id == et.tag_id) with
    | none => rw [hfind] at hres; cases hres
    | some tg =>
        rw [hfind] at hres
        injection hres with hres
        unfold liveTagExists
        rw [List.any_eq_true]
        refine ⟨et, hetm, ?_⟩
        rw [Bool.and_eq_true]
        refine ⟨hetid, ?_⟩
        rw [List.any_eq_true]
        refine ⟨tg, List.mem_of_find?_eq_some hfind, ?_⟩
        rw [Bool.and_eq_true]
        have htg := List.find?_some hfind
        refine ⟨htg, ?_⟩
        have hres' : tg.slug = t' := hres
        have ht : tg.slug = t := by
          rw [hres']
          exact (beq_iff_eq.mp hbeq).symm
        rw [ht]
        exact beq_self_eq_true t
  · intro hex
    unfold liveTagExists at hex
    rw [List.any_eq_true] at hex
    rcases hex with ⟨et, hetm, hand⟩
    rw [Bool.and_eq_true] at hand
    rcases hand with ⟨hetid, hany⟩
    rw [List.any_eq_true] at hany
    rcases hany with ⟨tg, htgm, hand'⟩
    rw [Bool.and_eq_true] at hand'
    rcases hand' with ⟨htgid, htslug⟩
    have hsome : (ds.tags.find? (fun tg' => tg'.id == et.tag_id)).isSome = true :=
      List.find?_isSome.mpr ⟨tg, htgm, htgid⟩
    rcases Option.isSome_iff_exists.mp hsome with ⟨tg', hfind⟩
    have htg' := List.find?_some hfind
    have heq : tg' = tg := by
      apply List.inj_on_of_nodup_map hnd (List.mem_of_find?_eq_some hfind) htgm
      rw [beq_iff_eq.mp htg', beq_iff_eq.mp htgid]
    refine ⟨tg.slug, ?_, ?_⟩
    · apply (perm_sortStable strLt _).mem_iff.mpr
      apply List.mem_filterMap.mpr
      refine ⟨et, List.mem_filter.mpr ⟨hetm, hetid⟩, ?_⟩
      rw [hfind, heq]
      rfl
    · rw [beq_iff_eq.mp htslug]
      exact beq_self_eq_true t

theorem listLtB_irrefl : ∀ as : List Char, listLtB as as = false
  | [] => rfl
  | a :: as => by
      simp only [listLtB]
      rw [if_neg (lt_irrefl a.toNat), if_neg (lt_irrefl a.toNat)]
      exact listLtB_irrefl as

theorem listLtB_asymm : ∀ as bs : List Char, listLtB as bs = true → listLtB bs as = false
  | [], [], h => Bool.noConfusion h
  | [], _ :: _, _ => rfl
  | _ :: _, [], h => Bool.noConfusion h
  | a :: as, b :: bs, h => by
      simp only [listLtB] at h ⊢
      by_cases hab : a.toNat < b.toNat
      · rw [if_neg (by omega), if_pos hab]
      · rw [if_neg hab] at h
        by_cases hba : b.toNat < a.toNat
        · rw [if_pos hba] at h
          exact Bool.noConfusion h
        · rw [if_neg hba] at h
          rw [if_neg hba, if_neg hab]
          exact listLtB_asymm as bs h

theorem listLtB_false_trans : ∀ as bs cs : List Char,
    listLtB as bs = false → listLtB bs cs = false → listLtB as cs = false
  | [], bs, cs, h1, h2 => by
      cases cs with
      | nil => rfl
      | cons c cs' =>
          cases bs with
          | nil => exact Bool.noConfusion h2
          | cons b bs' => exact Bool.noConfusion h1
  | _ :: _, _, [], _, _ => rfl
  | a :: as, bs, c :: cs, h1, h2 => by
      cases bs with
      | nil => exact Bool.noConfusion h2
      | cons b bs' =>
          simp only [listLtB] at h1 h2 ⊢
          by_cases hab : a.toNat < b.toNat
          · rw [if_pos hab] at h1
            exact Bool.noConfusion h1
          · rw [if_neg hab] at h1
            by_cases hbc : b.toNat < c.toNat
            · rw [if_pos hbc] at h2
              exact Bool.noConfusion h2
            · rw [if_neg hbc] at h2
              have hac : ¬ a.toNat < c.toNat := by omega
              rw [if_neg hac]
              by_cases hca : c.toNat < a.toNat
              · rw [if_pos hca]
              · rw [if_neg hca]
                have hba : ¬ b.toNat < a.toNat := by omega
                have hcb : ¬ c.toNat < b.toNat := by omega
                rw [if_neg hba] at h1
                rw [if_neg hcb] at h2
                exact listLtB_false_trans as bs' cs h1 h2
  termination_by as _ _ => as.length

theorem listLtB_false_antisymm : ∀ as bs : List Char,
    listLtB as bs = false → listLtB bs as = false → as = bs
  | [], [], _, _ => rfl
  | [], _ :: _, h1, _ => Bool.noConfusion h1
  | _ :: _, [], _, h2 => Bool.noConfusion h2
  | a :: as, b :: bs, h1, h2 => by
      simp only [listLtB] at h1 h2
      by_cases hab : a.toNat < b.toNat
      · rw [if_pos hab] at h1
        exact absurd h1 (by decide)
      · by_cases hba : b.toNat < a.toNat
        · rw [if_neg hab, if_pos hba] at h2
          exact absurd h2 (by decide)
        · rw [if_neg hab, if_neg hba] at h1
          rw [if_neg hba, if_neg hab] at h2
          have hchars : a = b :=
            Char.eq_of_val_eq (UInt32.ext (show a.toNat = b.toNat by omega))
          have htails := listLtB_false_antisymm as bs h1 h2
          rw [hchars, htails]

theorem strLt_asymm {a b : String} (h : strLt a b = true) : strLt b a = false :=
  listLtB_asymm _ _ h

theorem strLt_irrefl (a : String) : strLt a a = false := listLtB_irrefl _

theorem strLt_false_trans {a b c : String} (h1 : strLt a b = false)
    (h2 : strLt b c = false) : strLt a c = false :=
  listLtB_false_trans _ _ _ h1 h2

theorem strLt_false_antisymm {a b : String} (h1 : strLt a b = false)
    (h2 : strLt b a = false) : a = b := by
  have h := listLtB_false_antisymm a.toList b.toList h1 h2
  cases a
  cases b
  simp only [String.toList] at h
  simp [h]

/-- Stable sorting by a string key, descending: no later element's key is
strictly above an earlier element's key. -/
theorem pairwise_sortStable_dateDesc {α : Type} (key : α → String) (l : List α) :
    (sortStable (fun a b => strLt (key b) (key a)) l).Pairwise
      (fun a b => strLt (key a) (key b) = false) := by
  exact pairwise_sortStable (fun a b => strLt (key b) (key a))
    (fun a b h => strLt_asymm h)
    (fun a b c h1 h2 => strLt_false_trans h1 h2)
    l

/-- Stable sorting by string key descending with a numeric tie-break
ascending: keys pairwise descending, key ties pairwise ascending in the
number. -/
theorem pairwise_sortStable_dateDesc_numAsc {α : Type} (key : α → String)
    (nk : α → Nat) (l : List α) :
    (sortStable (fun a b => strLt (key b) (key a) ||
        (key b == key a && decide (nk a < nk b))) l).Pairwise
      (fun a b => strLt (key a) (key b) = false ∧ (key a = key b → nk a ≤ nk b)) := by
  have hp := pairwise_sortStable
    (fun a b => strLt (key b) (key a) || (key b == key a && decide (nk a < nk b)))
    (fun a b h => by
      simp only [Bool.or_eq_true, Bool.and_eq_true, decide_eq_true_eq,
        beq_iff_eq] at h
      simp only [Bool.or_eq_false_iff, Bool.and_eq_false_iff,
        decide_eq_false_iff_not, beq_eq_false_iff_ne]
      rcases h with h1 | ⟨h2, h3⟩
      · refine ⟨strLt_asymm h1, Or.inl ?_⟩
        intro hc
        rw [hc, strLt_irrefl] at h1
        exact Bool.noConfusion h1
      · constructor
        · rw [← h2]
          exact strLt_irrefl _
        · exact Or.inr (by omega))
    (fun a b c h1 h2 => by
      simp only [Bool.or_eq_false_iff, Bool.and_eq_false_iff,
        decide_eq_false_iff_not, beq_eq_false_iff_ne] at h1 h2 ⊢
      rcases h1 with ⟨hs1, hd1⟩
      rcases h2 with ⟨hs2, hd2⟩
      refine ⟨strLt_false_trans hs1 hs2, ?_⟩
      by_cases hac : key a = key c
      · have hs2' : strLt (key b) (key a) = false := by rw [hac]; exact hs2
        have hab : key a = key b := strLt_false_antisymm hs1 hs2'
        have hn1 : nk a ≤ nk b := by
          rcases hd1 with hne | hle
          · exact absurd hab hne
          · omega
        have hn2 : nk b ≤ nk c := by
          rcases hd2 with hne | hle
          · exact absurd (hab ▸ hac) hne
          · omega
        exact Or.inr (by omega)
      · exact Or.inl hac)
    l
  exact hp.imp (fun {a b} h => by
    simp only [Bool.or_eq_false_iff, Bool.and_eq_false_iff,
      decide_eq_false_iff_not, beq_eq_false_iff_ne] at h
    rcases h with ⟨h1, h2⟩
    refine ⟨h1, fun heq => ?_⟩
    rcases h2 with hne | hle
    · exact absurd heq hne
    · omega)

/-- Stable sorting by string key descending with a numeric tie-break
descending. -/
theorem pairwise_sortStable_dateDesc_numDesc {α : Type} (key : α → String)
    (nk : α → Nat) (l : List α) :
    (sortStable (fun a b => strLt (key b) (key a) ||
        (key b == key a && decide (nk b < nk a))) l).Pairwise
      (fun a b => strLt (key a) (key b) = false ∧ (key a = key b → nk b ≤ nk a)) := by
  have hp := pairwise_sortStable
    (fun a b => strLt (key b) (key a) || (key b == key a && decide (nk b < nk a)))
    (fun a b h => by
      simp only [Bool.or_eq_true, Bool.and_eq_true, decide_eq_true_eq,
        beq_iff_eq] at h
      simp only [Bool.or_eq_false_iff, Bool.and_eq_false_iff,
        decide_eq_false_iff_not, beq_eq_false_iff_ne]
      rcases h with h1 | ⟨h2, h3⟩
      · refine ⟨strLt_asymm h1, Or.inl ?_⟩
        intro hc
        rw [hc, strLt_irrefl] at h1
        exact Bool.noConfusion h1
      · constructor
        · rw [← h2]
          exact strLt_irrefl _
        · exact Or.inr (by omega))
    (fun a b c h1 h2 => by
      simp only [Bool.or_eq_false_iff, Bool.and_eq_false_iff,
        decide_eq_false_iff_not, beq_eq_false_iff_ne] at h1 h2 ⊢
      rcases h1 with ⟨hs1, hd1⟩
      rcases h2 with ⟨hs2, hd2⟩
      refine ⟨strLt_false_trans hs1 hs2, ?_⟩
      by_cases hac : key a = key c
      · have hs2' : strLt (key b) (key a) = false := by rw [hac]; exact hs2
        have hab : key a = key b := strLt_false_antisymm hs1 hs2'
        have hn1 : nk b ≤ nk a := by
          rcases hd1 with hne | hle
          · exact absurd hab hne
          · omega
        have hn2 : nk c ≤ nk b := by
          rcases hd2 with hne | hle
          · exact absurd (hab ▸ hac) hne
          · omega
        exact Or.inr (by omega)
      · exact Or.inl hac)
    l
  exact hp.imp (fun {a b} h => by
    simp only [Bool.or_eq_false_iff, Bool.and_eq_false_iff,
      decide_eq_false_iff_not, beq_eq_false_iff_ne] at h
    rcases h with ⟨h1, h2⟩
    refine ⟨h1, fun heq => ?_⟩
    rcases h2 with hne | hle
    · exact absurd heq hne
    · omega)

theorem optFilter_map {α β γ : Type} (o : Option γ) (p : γ → β → Bool)
    (g : α → β) (l : List α) :
    optFilter o p (l.map g) = (optFilter o (fun v a => p v (g a)) l).map g := by
  cases o with
  | none => rfl
  | some v => exact filter_map_comm g (p v) l

theorem optFilter_filter {α β : Type} (o : Option β) (p : β → α → Bool)
    (r : α → Bool) (l : List α) :
    optFilter o p (l.filter r) =
      l.filter (fun a => r a && optPred o (fun v => p v a)) := by
  cases o with
  | none => simp only [optFilter, optPred, Bool.and_true]
  | some v => exact filter_and_comm r (p v) l

theorem optFilter_none {α β : Type} (p : β → α → Bool) (l : List α) :
    optFilter none p l = l := rfl

theorem optPred_none {β : Type} (p : β → Bool) : optPred none p = true := rfl

/-- Stable insertion keeps comparator ties in their input relation:
inserting into a sorted list that is also `R`-ordered on ties, an
element related by `R` to everything present, yields a sorted list
`R`-ordered on ties. -/
theorem pairwise_insertStable_preserve {α : Type} (lt : α → α → Bool)
    (R : α → α → Prop)
    (hasym : ∀ a b, lt a b = true → lt b a = false)
    (htrans : ∀ a b c, lt b a = false → lt c b = false → lt c a = false)
    (x : α) (l : List α)
    (hl : l.Pairwise (fun a b => lt b a = false ∧ (lt a b = false → R a b)))
    (hx : ∀ b ∈ l, R x b) :
    (insertStable lt x l).Pairwise
      (fun a b => lt b a = false ∧ (lt a b = false → R a b)) := by
  induction l with
  | nil => simp [insertStable]
  | cons y ys ih =>
      rcases List.pairwise_cons.mp hl with ⟨hy, hys⟩
      by_cases h : lt y x = true
      · simp only [insertStable, if_pos h]
        refine List.pairwise_cons.mpr
          ⟨?_, ih hys (fun b hb => hx b (List.mem_cons_of_mem y hb))⟩
        intro z hz
        have hz' := (perm_insertStable lt x ys).mem_iff.mp hz
        rcases List.mem_cons.mp hz' with hzx | hzy
        · rw [hzx]
          refine ⟨hasym y x h, fun hcon => ?_⟩
          rw [h] at hcon
          exact Bool.noConfusion hcon
        · exact hy z hzy
      · have hyx : lt y x = false := by
          cases hxy : lt y x with
          | false => rfl
          | true => exact absurd hxy h
        simp only [insertStable, if_neg h]
        refine List.pairwise_cons.mpr ⟨?_, hl⟩
        intro z hz
        rcases List.mem_cons.mp hz with hzy | hzys
        · rw [hzy]
          exact ⟨hyx, fun hcon => hx y (List.mem_cons_self y ys)⟩
        · exact ⟨htrans x y z hyx (hy z hzys).1,
            fun hcon => hx z (List.mem_cons_of_mem y hzys)⟩

/-- A stable sort of an `R`-ordered list is sorted and still `R`-ordered
on the pairs the comparator does not separate (JS `Array.prototype.sort`
stability: an earlier sort's order survives as the tie-break of a later
one). -/
theorem pairwise_sortStable_preserve {α : Type} (lt : α → α → Bool)
    (R : α → α → Prop)
    (hasym : ∀ a b, lt a b = true → lt b a = false)
    (htrans : ∀ a b c, lt b a = false → lt c b = false → lt c a = false)
    (l : List α) (hl : l.Pairwise R) :
    (sortStable lt l).Pairwise
      (fun a b => lt b a = false ∧ (lt a b = false → R a b)) := by
  induction l with
  | nil => simp [sortStable]
  | cons x xs ih =>
      rcases List.pairwise_cons.mp hl with ⟨hx, hxs⟩
      exact pairwise_insertStable_preserve lt R hasym htrans x _ (ih hxs)
        (fun b hb => hx b ((perm_sortStable lt xs).mem_iff.mp hb))

/-! ## C5 — source detail ordering on both paths -/

/-- The published linked-event rows of one source, resolved per link by
the first matching published event. -/
def publishedLinkedRows (ds : DemoDataset) (sourceId : String) : List SourceLinkedEvent :=
  (ds.eventSources.filter (fun l => l.source_id == sourceId)).filterMap (fun l =>
    (ds.events.find? (fun e => e.id == l.event_id && e.status == .published)).map
      (fun e => mkLinked e l))

/-- C5 (amended): on both paths `getSourceById` returns the found source
with exactly the published linked events (as a multiset), sorted by
event date *descending* — not by relevance rank descending.  Rank only
orders date ties: descending on the demo path (its first sort survives
the stable date sort as the tie-break) and ascending in the live
query's `ORDER BY`. -/
theorem getSourceById_paths (ds : DemoDataset) (sid : String)
    (hnd : (ds.events.map (·.id)).Nodup) :
    (getSourceByIdFromDemo ds sid = none ↔ getSourceByIdLive ds sid = none) ∧
    (∀ s, ds.sources.find? (fun s' => s'.id == sid) = some s →
      ∃ dl ll,
        getSourceByIdFromDemo ds sid = some (mkSourceDetail s dl) ∧
        getSourceByIdLive ds sid = some (mkSourceDetail s ll) ∧
        dl.Perm (publishedLinkedRows ds sid) ∧
        ll.Perm (publishedLinkedRows ds sid) ∧
        dl.Pairwise (fun a b => strLt a.event_date b.event_date = false ∧
          (a.event_date = b.event_date → b.relevance_rank ≤ a.relevance_rank)) ∧
        ll.Pairwise (fun a b => strLt a.event_date b.event_date = false ∧
          (a.event_date = b.event_date → a.relevance_rank ≤ b.relevance_rank))) := by
  have hrows : (ds.eventSources.filter (fun l => l.source_id == sid)).flatMap
      (fun l => (ds.events.filter
        (fun e => e.id == l.event_id && e.status == .published)).map
        (fun e => mkLinked e l)) = publishedLinkedRows ds sid := by
    unfold publishedLinkedRows
    apply filterMap_eq_flatMap
    intro l
    rw [filter_eq_find?_toList (·.id)
      (fun e => e.id == l.event_id && e.status == .published) l.event_id ds.events hnd
      (fun e he => by rw [Bool.and_eq_true] at he; exact beq_iff_eq.mp he.1)]
    rw [option_toList_map]
  constructor
  · unfold getSourceByIdFromDemo getSourceByIdLive
    cases ds.sources.find? (fun s' => s'.id == sid) <;> simp
  · intro s hs
    have hdemo : getSourceByIdFromDemo ds sid = some (mkSourceDetail s
        (sortStable linkedDateDescLt
          ((sortStable rankDescLt
            (ds.eventSources.filter (fun l => l.source_id == sid))).filterMap
            (fun l => (ds.events.find?
              (fun e => e.id == l.event_id && e.status == .published)).map
              (fun e => mkLinked e l))))) := by
      unfold getSourceByIdFromDemo
      rw [hs]
    have hlive : getSourceByIdLive ds sid = some (mkSourceDetail s
        (sortStable liveLinkedLt
          ((ds.eventSources.filter (fun l => l.source_id == sid)).flatMap
            (fun l => (ds.events.filter
              (fun e => e.id == l.event_id && e.status == .published)).map
              (fun e => mkLinked e l))))) := by
      unfold getSourceByIdLive
      rw [hs]
    rw [hrows] at hlive
    refine ⟨_, _, hdemo, hlive, ?_, ?_, ?_, ?_⟩
    · exact (perm_sortStable _ _).trans
        (List.Perm.filterMap _ (perm_sortStable rankDescLt _))
    · exact perm_sortStable _ _
    · have hlinks : (sortStable rankDescLt
          (ds.eventSources.filter (fun l => l.source_id == sid))).Pairwise
          (fun l1 l2 => rankDescLt l2 l1 = false) :=
        pairwise_sortStable rankDescLt
          (fun a b h => by
            simp only [rankDescLt, decide_eq_true_eq] at h
            simp only [rankDescLt, decide_eq_false_iff_not]
            omega)
          (fun a b c h1 h2 => by
            simp only [rankDescLt, decide_eq_false_iff_not] at h1 h2 ⊢
            omega) _
      have hlinked : ((sortStable rankDescLt
          (ds.eventSources.filter (fun l => l.source_id == sid))).filterMap
          (fun l => (ds.events.find?
            (fun e => e.id == l.event_id && e.status == .published)).map
            (fun e => mkLinked e l))).Pairwise
          (fun a b => b.relevance_rank ≤ a.relevance_rank) := by
        refine List.Pairwise.filterMap _ ?_ hlinks
        intro l1 l2 hR b hb b' hb'
        rw [Option.mem_def] at hb hb'
        rcases Option.map_eq_some'.mp hb with ⟨e, he, hbe⟩
        rcases Option.map_eq_some'.mp hb' with ⟨e', he', hbe'⟩
        subst hbe
        subst hbe'
        show l2.relevance_rank ≤ l1.relevance_rank
        simp only [rankDescLt, decide_eq_false_iff_not] at hR
        omega
      have hpres := pairwise_sortStable_preserve linkedDateDescLt
        (fun a b => b.relevance_rank ≤ a.relevance_rank)
        (fun a b h => strLt_asymm h)
        (fun a b c h1 h2 => strLt_false_trans h1 h2) _ hlinked
      exact hpres.imp (fun {a b} h => by
        rcases h with ⟨h1, h2⟩
        refine ⟨h1, fun heq => ?_⟩
        apply h2
        show strLt b.event_date a.event_date = false
        rw [heq]
        exact strLt_irrefl _)
    · exact pairwise_sortStable_dateDesc_numAsc (fun x : SourceLinkedEvent => x.event_date)
        (fun x : SourceLinkedEvent => x.relevance_rank) _

def rankPayloadC5 : SeedPayload :=
  { sources := [{ source_name := "Src", source_url := "http://s" }],
    events := [
      { slug := some "ev-a", title := "A", event_date := "2001-01-01", region := "US",
        category := "C", summary := "S", impact := "I",
        importance_score := 3, status := some EventStatus.published },
      { slug := some "ev-b", title := "B", event_date := "2000-01-01", region := "US",
        category := "C", summary := "S", impact := "I",
        importance_score := 3, status := some EventStatus.published }],
    event_sources := [
      { event_slug := "ev-a", source_url := "http://s", relevance_rank := some 1 },
      { event_slug := "ev-b", source_url := "http://s", relevance_rank := some 5 }] }

def dsRankC5 : DemoDataset := buildDataset sampleHash rankPayloadC5 "now"

def sidRankC5 : String := stableUuid sampleHash "source:http://s"

/-- C5 counterexample: for a source linked to a rank-1 event dated 2001
and a rank-5 event dated 2000, both paths return the linked events with
ranks `[1, 5]` — an ascending rank sequence, refuting "sorted by
relevance rank descending" (which would demand `[5, 1]`). -/
theorem getSourceById_not_rank_descending :
    ((getSourceByIdFromDemo dsRankC5 sidRankC5).map
      (fun d => d.linked_events.map (·.relevance_rank)) = some [1, 5]) ∧
    ((getSourceByIdLive dsRankC5 sidRankC5).map
      (fun d => d.linked_events.map (·.relevance_rank)) = some [1, 5]) ∧
    ((getSourceByIdFromDemo dsRankC5 sidRankC5).map
      (fun d => decide (d.linked_events.Pairwise
        (fun a b => b.relevance_rank ≤ a.relevance_rank))) = some false) := by
  refine ⟨by decide, by decide, by decide⟩

def srcRecC5 : DemoSourceRecord :=
  { id := stableUuid sampleHash "source:http://s", source_name := "Src",
    source_url := "http://s", source_type := .other, publisher := none,
    publication_or_snapshot_date := none, access_date := none, rights_note := none,
    notes_on_reliability := none, created_at := "now", updated_at := "now" }

/-- Three linked published events, two of them sharing the date
2001-01-01 with ranks 1 and 4 — a genuine date tie for the witness. -/
def tieRankPayloadC5 : SeedPayload :=
  { sources := [{ source_name := "Src", source_url := "http://s" }],
    events := [
      { slug := some "ev-a", title := "A", event_date := "2001-01-01", region := "US",
        category := "C", summary := "S", impact := "I",
        importance_score := 3, status := some EventStatus.published },
      { slug := some "ev-b", title := "B", event_date := "2000-01-01", region := "US",
        category := "C", summary := "S", impact := "I",
        importance_score := 3, status := some EventStatus.published },
      { slug := some "ev-c", title := "Cc", event_date := "2001-01-01", region := "US",
        category := "C", summary := "S", impact := "I",
        importance_score := 3, status := some EventStatus.published }],
    event_sources := [
      { event_slug := "ev-a", source_url := "http://s", relevance_rank := some 1 },
      { event_slug := "ev-b", source_url := "http://s", relevance_rank := some 5 },
      { event_slug := "ev-c", source_url := "http://s", relevance_rank := some 4 }] }

def dsTieC5 : DemoDataset := buildDataset sampleHash tieRankPayloadC5 "now"

/-- C5 witness: the amended theorem instantiated on a concrete source
whose linked events include a date tie (2001-01-01 with ranks 1 and 4),
so both tie-break clauses are exercised. -/
theorem getSourceById_paths_witness :
    (getSourceByIdFromDemo dsTieC5 sidRankC5 = none ↔
      getSourceByIdLive dsTieC5 sidRankC5 = none) ∧
    (∃ dl ll,
      getSourceByIdFromDemo dsTieC5 sidRankC5 = some (mkSourceDetail srcRecC5 dl) ∧
      getSourceByIdLive dsTieC5 sidRankC5 = some (mkSourceDetail srcRecC5 ll) ∧
      dl.Perm (publishedLinkedRows dsTieC5 sidRankC5) ∧
      ll.Perm (publishedLinkedRows dsTieC5 sidRankC5) ∧
      dl.Pairwise (fun a b => strLt a.event_date b.event_date = false ∧
        (a.event_date = b.event_date → b.relevance_rank ≤ a.relevance_rank)) ∧
      ll.Pairwise (fun a b => strLt a.event_date b.event_date = false ∧
        (a.event_date = b.event_date → a.relevance_rank ≤ b.relevance_rank))) :=
  ⟨(getSourceById_paths dsTieC5 sidRankC5 (by decide)).1,
    (getSourceById_paths dsTieC5 sidRankC5 (by decide)).2 srcRecC5 (by decide)⟩

/-! ## C6 — month-day listing on both paths -/

/-- C6 (amended): for every snapshot with distinct tag ids and at most
5000 published events, both month-day paths return exactly the published
events whose `MM-DD` date suffix matches the request (as a multiset),
each path sorted by date descending — but the demo path applies no
importance tie-break (it filters an already date-sorted page), while
only the live query breaks date ties by importance descending. -/
theorem listByMonthDay_paths (ds : DemoDataset) (md : String)
    (hnd : (ds.tags.map (·.id)).Nodup)
    (hcount : (ds.events.filter
      (fun e => e.status == EventStatus.published)).length ≤ 5000) :
    (listPublishedEventsByMonthDayFromDemo ds md).Perm
      (listPublishedEventsByMonthDayLive ds md) ∧
    (listPublishedEventsByMonthDayLive ds md).Perm
      ((ds.events.filter
        (fun e => e.status == EventStatus.published && e.event_date.drop 5 == md)).map
        (liveRowOf ds)) ∧
    (listPublishedEventsByMonthDayFromDemo ds md).Pairwise
      (fun a b => strLt a.event_date b.event_date = false) ∧
    (listPublishedEventsByMonthDayLive ds md).Pairwise
      (fun a b => strLt a.event_date b.event_date = false ∧
        (a.event_date = b.event_date → b.importance_score ≤ a.importance_score)) := by
  have hitems : (listPublishedEventsFromDemo ds monthDayDemoFilters).items =
      (sortStable (applyEventSortLt .date_desc)
        ((ds.events.filter (fun e => e.status == EventStatus.published)).map
          (demoItemOf ds))).take 5000 := rfl
  have hlen : (sortStable (applyEventSortLt .date_desc)
      ((ds.events.filter (fun e => e.status == EventStatus.published)).map
        (demoItemOf ds))).length ≤ 5000 := by
    rw [length_sortStable, List.length_map]
    exact hcount
  have hdemo : listPublishedEventsByMonthDayFromDemo ds md =
      (sortStable (applyEventSortLt .date_desc)
        ((ds.events.filter (fun e => e.status == EventStatus.published)).map
          (demoItemOf ds))).filter (fun i => i.event_date.drop 5 == md) := by
    unfold listPublishedEventsByMonthDayFromDemo
    rw [hitems, List.take_of_length_le hlen]
  refine ⟨?_, ?_, ?_, ?_⟩
  · rw [hdemo]
    unfold listPublishedEventsByMonthDayLive
    have p1 := List.Perm.filter (fun i : EventListItem => i.event_date.drop 5 == md)
      (perm_sortStable (applyEventSortLt .date_desc)
        ((ds.events.filter (fun e => e.status == EventStatus.published)).map
          (demoItemOf ds)))
    have e1 : ((ds.events.filter (fun e => e.status == EventStatus.published)).map
        (demoItemOf ds)).filter (fun i => i.event_date.drop 5 == md) =
        ((ds.events.filter (fun e => e.status == EventStatus.published)).filter
          (fun e => (demoItemOf ds e).event_date.drop 5 == md)).map (demoItemOf ds) :=
      filter_map_comm (demoItemOf ds) (fun i => i.event_date.drop 5 == md) _
    have e2 : ((ds.events.filter (fun e => e.status == EventStatus.published)).filter
        (fun e => (demoItemOf ds e).event_date.drop 5 == md)).map (demoItemOf ds) =
        ((ds.events.filter (fun e => e.status == EventStatus.published)).filter
          (fun e => (demoItemOf ds e).event_date.drop 5 == md)).map (liveRowOf ds) :=
      (List.map_congr_left (fun e _ => liveRowOf_eq_demoItemOf ds hnd e)).symm
    have e3 : (ds.events.filter (fun e => e.status == EventStatus.published)).filter
        (fun e => (demoItemOf ds e).event_date.drop 5 == md) =
        ds.events.filter (fun e =>
          (e.status == EventStatus.published) &&
            ((demoItemOf ds e).event_date.drop 5 == md)) :=
      filter_and_comm _ _ _
    refine p1.trans ?_
    rw [e1, e2, e3]
    exact (List.Perm.map (liveRowOf ds) (perm_sortStable monthDayLiveLt _)).symm
  · unfold listPublishedEventsByMonthDayLive
    exact List.Perm.map (liveRowOf ds) (perm_sortStable monthDayLiveLt _)
  · rw [hdemo]
    exact List.Pairwise.filter _
      (pairwise_sortStable_dateDesc (fun i : EventListItem => i.event_date) _)
  · unfold listPublishedEventsByMonthDayLive
    exact List.Pairwise.map (liveRowOf ds) (fun a b h => h)
      (pairwise_sortStable_dateDesc_numDesc (fun e : DemoEventRecord => e.event_date)
        (fun e : DemoEventRecord => e.importance_score) _)

def monthDayPayloadC6 : SeedPayload :=
  { events := [
      { slug := some "e-one", title := "One", event_date := "2000-01-01", region := "US",
        category := "C", summary := "S", impact := "I",
        importance_score := 1, status := some EventStatus.published },
      { slug := some "e-two", title := "Two", event_date := "2000-01-01", region := "US",
        category := "C", summary := "S", impact := "I",
        importance_score := 5, status := some EventStatus.published }] }

def dsMdC6 : DemoDataset := buildDataset sampleHash monthDayPayloadC6 "now"

/-- C6 counterexample: two published events share the date 2000-01-01
with importance 1 (seeded first) and 5; on month-day `01-01` the demo
path returns importance sequence `[1, 5]` while the live query returns
`[5, 1]` — the demo path is not importance-descending on date ties and
the two paths disagree in order. -/
theorem listByMonthDay_not_importance_sorted :
    (listPublishedEventsByMonthDayFromDemo dsMdC6 "01-01").map (·.importance_score)
      = [1, 5] ∧
    (listPublishedEventsByMonthDayLive dsMdC6 "01-01").map (·.importance_score)
      = [5, 1] := by
  refine ⟨by decide, by decide⟩

/-- C6 witness: the amended theorem instantiated on the concrete
two-event snapshot at month-day `01-01`. -/
theorem listByMonthDay_paths_witness :
    (listPublishedEventsByMonthDayFromDemo dsMdC6 "01-01").Perm
      (listPublishedEventsByMonthDayLive dsMdC6 "01-01") ∧
    (listPublishedEventsByMonthDayLive dsMdC6 "01-01").Perm
      ((dsMdC6.events.filter
        (fun e => e.status == EventStatus.published &&
          e.event_date.drop 5 == "01-01")).map (liveRowOf dsMdC6)) ∧
    (listPublishedEventsByMonthDayFromDemo dsMdC6 "01-01").Pairwise
      (fun a b => strLt a.event_date b.event_date = false) ∧
    (listPublishedEventsByMonthDayLive dsMdC6 "01-01").Pairwise
      (fun a b => strLt a.event_date b.event_date = false ∧
        (a.event_date = b.event_date → b.importance_score ≤ a.importance_score)) :=
  listByMonthDay_paths dsMdC6 "01-01" (by decide) (by decide)

/-! ## C1 — published-events listing on both paths -/

/-- C1 (amended): for every snapshot with distinct tag ids and every
request without a free-text keyword, the live path and the in-memory
path of `listPublishedEvents` return identical results — same items in
the same order, same total and same computed page count.  (With a
keyword the paths differ: the demo path substring-matches over
title+summary+category+region while the live query matches a tsvector
over title+summary+impact.) -/
theorem listPublishedEvents_paths (ds : DemoDataset) (f : ListEventsFilters)
    (hnd : (ds.tags.map (·.id)).Nodup) (hq : f.q = none) :
    listPublishedEventsLive ds f = listPublishedEventsFromDemo ds f := by
  have hfun : liveRowOf ds = demoItemOf ds :=
    funext (liveRowOf_eq_demoItemOf ds hnd)
  have hc : ∀ a b, applyEventSortLt f.sort (demoItemOf ds a) (demoItemOf ds b) =
      liveSortLt f.sort a b := by
    intro a b
    cases f.sort with
    | date_asc => rfl
    | importance_desc => rfl
    | date_desc => rfl
  have hitems : optFilter f.q (fun q i =>
      matchesKeyword (i.title ++ " " ++ i.summary ++ " " ++ i.category ++ " " ++
        i.region) q)
      (optFilter f.importanceMin (fun m i => decide (m ≤ i.importance_score))
        (optFilter f.tag (fun t i => i.tags.contains t)
          (optFilter f.region (fun r i => i.region == r)
            (optFilter f.category (fun c i => i.category == c)
              (optFilter f.to_ (fun d i => strGe d i.event_date)
                (optFilter f.from_ (fun d i => strGe i.event_date d)
                  (optFilter f.date (fun d i => i.event_date == d)
                    ((ds.events.filter
                      (fun e => e.status == EventStatus.published)).map
                      (demoItemOf ds))))))))) =
      (ds.events.filter (liveEventPred ds f)).map (demoItemOf ds) := by
    rw [hq, optFilter_none]
    rw [optFilter_map, optFilter_map, optFilter_map, optFilter_map, optFilter_map,
      optFilter_map, optFilter_map]
    rw [optFilter_filter, optFilter_filter, optFilter_filter, optFilter_filter,
      optFilter_filter, optFilter_filter, optFilter_filter]
    congr 1
    apply List.filter_congr
    intro e _
    unfold liveEventPred
    rw [hq, optPred_none, Bool.and_true]
    congr 1
    congr 1
    cases f.tag with
    | none => rfl
    | some t => exact demoTags_contains_eq_liveTagExists ds hnd e.id t
  simp only [listPublishedEventsLive, listPublishedEventsFromDemo]
  rw [hfun, hitems]
  unfold applyEventSort
  rw [← map_sortStable (liveSortLt f.sort) (applyEventSortLt f.sort)
    (demoItemOf ds) hc]
  rw [List.length_map, length_sortStable, ← List.map_drop, ← List.map_take]

def keywordPayloadC1 : SeedPayload :=
  { events := [
      { slug := some "ev-a", title := "A", event_date := "2001-01-01",
        region := "Asia", category := "C", summary := "S", impact := "I",
        importance_score := 3, status := some EventStatus.published }] }

def dsKwC1 : DemoDataset := buildDataset sampleHash keywordPayloadC1 "now"

def kwFiltersC1 : ListEventsFilters :=
  { page := 1, pageSize := 10, sort := .date_desc, q := some "asia" }

/-- C1 counterexample: a published event in region `Asia` and the
keyword request `asia`.  The demo path substring-matches the region and
returns the event; the live tsvector over title+summary+impact does not,
so the two paths return different result sets. -/
theorem listPublishedEvents_keyword_paths_differ :
    (listPublishedEventsFromDemo dsKwC1 kwFiltersC1).items.length = 1 ∧
    (listPublishedEventsLive dsKwC1 kwFiltersC1).items.length = 0 := by
  refine ⟨by decide, by decide⟩

def kwNoneFiltersC1 : ListEventsFilters :=
  { page := 1, pageSize := 10, sort := .date_desc }

/-- C1 witness: the amended equivalence instantiated on a concrete
snapshot and a concrete keyword-free request. -/
theorem listPublishedEvents_paths_witness :
    listPublishedEventsLive dsKwC1 kwNoneFiltersC1 =
      listPublishedEventsFromDemo dsKwC1 kwNoneFiltersC1 :=
  listPublishedEvents_paths dsKwC1 kwNoneFiltersC1 (by decide) rfl

end Hisweb
